import Mathlib

/-!
# Verification of the booster-pack repository core

A shallow embedding of the two core modules of the repository:

* `src/binder_system.py` — binder persistence, state sanitization on load,
  pack-result ingestion, progression unlocks and milestone events
  (`BinderService` and friends);
* `src/pack_engine.py` — the seeded pack-drawing engine (`open_pack`,
  `PackConfig`).

Python's dynamically-typed values are embedded where the code actually
branches on runtime types: `PyScalar` stands for any Python value at a
position where the code only ever distinguishes strings, ints, bools, `None`
and "anything else".  Python dicts whose insertion order matters are embedded
as association lists.  Machine floats (`random()` rolls, probabilities,
completion percentages) are embedded as rationals: all comparisons performed
by the code on these values (`<`, `>=` on values in [0,1] or [0,100]) agree
with rational comparison.  Wall-clock timestamps are threaded as explicit
string parameters.  Python's `random.Random` is embedded as an abstract
deterministic stream indexed by (seed, number of draws so far), which is
faithful to the only properties the code relies on: seeding determines the
whole stream, `random()` yields a value in [0,1), and `choice` picks an
index below the list length.
-/

namespace BoosterPack

/-- A Python runtime value at a position where the code only distinguishes
strings, ints, bools, `None` and "other" (lists/dicts/...).  `pother` carries
the `str()` rendering of the value, which is all the code ever uses of it. -/
inductive PyScalar where
  | pstr (s : String)
  | pint (n : Int)
  | pbool (b : Bool)
  | pnone
  | pother (repr : String)
  deriving Repr, DecidableEq

namespace PyScalar

/-- `isinstance(v, str)`. -/
def isStr : PyScalar → Bool
  | pstr _ => true
  | _ => false

/-- `isinstance(v, int)` — in Python, `bool` is a subclass of `int`. -/
def isInt : PyScalar → Bool
  | pint _ => true
  | pbool _ => true
  | _ => false

/-- `isinstance(v, bool)`. -/
def isBool : PyScalar → Bool
  | pbool _ => true
  | _ => false

/-- The integer value of a value for which `isInt` holds (`True == 1`). -/
def asInt : PyScalar → Int
  | pint n => n
  | pbool b => if b then 1 else 0
  | _ => 0

/-- The string value of a `pstr`. -/
def asStr : PyScalar → String
  | pstr s => s
  | _ => ""

/-- Python `str(v)`. -/
def strOf : PyScalar → String
  | pstr s => s
  | pint n => toString n
  | pbool b => if b then "True" else "False"
  | pnone => "None"
  | pother r => r

end PyScalar

/-! ## Association lists (Python dicts preserving insertion order) -/

/-- Dict lookup (`d.get(k)`). -/
def alookup {α : Type} (m : List (String × α)) (k : String) : Option α :=
  match m.find? (fun p => p.1 == k) with
  | some p => some p.2
  | none => none

/-- Dict store (`d[k] = v`): updates the existing binding in place (keeping
its position, as Python dicts do) or appends a new binding at the end. -/
def aset {α : Type} (m : List (String × α)) (k : String) (v : α) :
    List (String × α) :=
  match m with
  | [] => [(k, v)]
  | (k', v') :: rest =>
      if k' = k then (k, v) :: rest else (k', v') :: aset rest k v

/-- Python `set.add` on a set embedded as a duplicate-free list preserving
insertion order. -/
def addUnique (l : List String) (x : String) : List String :=
  if x ∈ l then l else l ++ [x]

/-! ## CardCatalog (`binder_system.CardCatalog`)

The catalog is built once from the pool files; the claims only exercise its
query interface, so it is embedded as its resulting index: per set, the list
of card ids occurring in that set's four rarity buckets (a Python `set`,
embedded as a duplicate-free list). -/

structure Catalog where
  /-- `cards_by_set`: set id → card ids of that set (duplicate-free). -/
  pools : List (String × List String)
  deriving Repr, DecidableEq

namespace Catalog

/-- `CardCatalog.is_known_set`. -/
def isKnownSet (cat : Catalog) (setId : String) : Bool :=
  (alookup cat.pools setId).isSome

/-- The card ids of a set (`cards_by_set.get(set_id, set())`). -/
def cardsInSet (cat : Catalog) (setId : String) : List String :=
  (alookup cat.pools setId).getD []

/-- `CardCatalog.is_known_card_in_set`. -/
def isKnownCardInSet (cat : Catalog) (cardId setId : String) : Bool :=
  cardId ∈ cat.cardsInSet setId

/-- `CardCatalog.is_known_card` (`card_id in card_to_sets`). -/
def isKnownCard (cat : Catalog) (cardId : String) : Bool :=
  cat.pools.any (fun p => cardId ∈ p.2)

/-- `total_cards_by_set` (the size of the per-set card-id set). -/
def totalCards (cat : Catalog) (setId : String) : Nat :=
  (cat.cardsInSet setId).dedup.length

end Catalog

/-- `binder_system._compose_card_key`. -/
def composeCardKey (setId cardId : String) : String :=
  setId ++ "::" ++ cardId

/-! ## Binder state (`BinderService.state`) -/

/-- `binder_system.CardRecord`.  `quantity_owned` is an `Int`: the sanitizer
admits any non-negative Python int. -/
structure CardRecord where
  card_id : String
  set_id : String
  quantity_owned : Int
  first_obtained_at : String
  last_obtained_at : String
  ever_new_discovery : Bool
  deriving Repr, DecidableEq

/-- The `details` dict of a logged event.  Only the shapes the code creates
are distinguished; events kept verbatim from a persisted file get `rawD`. -/
inductive EventDetails where
  | reasonFirstSet
  | nextSet (next_set_id : String)
  | milestone (threshold : Int) (completion_percentage : ℚ)
  | emptyD
  | rawD
  deriving Repr, DecidableEq

/-- One entry of `state["events"]`.  `key` is the event's effective dedup key
`str(evt.get("key", ""))` (an event dict persisted without a `key` field has
effective key `""`).  For events created by `_log_event` this is the computed
dedup key. -/
structure EventRec where
  key : String
  etype : String
  set_id : PyScalar
  timestamp : String
  details : EventDetails
  deriving Repr, DecidableEq

/-- One entry of `state["pack_history"]`: either an arbitrary value kept
verbatim from the persisted file, or an entry appended by
`add_cards_to_binder`. -/
inductive HistEntry where
  | rawItem (v : PyScalar)
  | entry (timestamp set_id : String) (cards_added invalid_card_ids : List String)
  deriving Repr, DecidableEq

/-- The sanitized in-memory binder state (`BinderService.state`). -/
structure BState where
  version : PyScalar
  cards : List (String × CardRecord)
  unlocked_sets : List String
  set_milestones : List (String × List Int)
  events : List EventRec
  pack_history : List HistEntry
  deriving Repr, DecidableEq

/-- The empty initial state built by `_validate_or_initialize_state`. -/
def emptyBState : BState :=
  { version := .pint 1, cards := [], unlocked_sets := [], set_milestones := [],
    events := [], pack_history := [] }

/-- The progression configuration a `BinderService` is constructed with
(`progression_order`, `track_partial_milestones`, `milestone_thresholds`,
`maintain_pack_history`). -/
structure ProgCfg where
  progression_order : List String
  track_partial_milestones : Bool
  milestone_thresholds : List Int
  maintain_pack_history : Bool
  deriving Repr, DecidableEq

/-- A `BinderService`: configuration, catalog, sanitized state, and the
derived `owned_unique_by_set` index (set id → duplicate-free list of owned
card ids). -/
structure Service where
  cfg : ProgCfg
  catalog : Catalog
  state : BState
  ownedIdx : List (String × List String)
  deriving Repr, DecidableEq

/-! ## Event logging (`_event_key`, `_log_event`) -/

/-- The `next_set` component of `_event_key`
(`details.get("next_set_id")` when it is a string, else `""`). -/
def detailsNextSet : EventDetails → String
  | .nextSet s => s
  | _ => ""

/-- The `threshold` component of `_event_key`
(`str(details["threshold"])` when it is an int, else `""`). -/
def detailsThreshold : EventDetails → String
  | .milestone t _ => toString t
  | _ => ""

/-- `BinderService._event_key`. -/
def eventKey (etype : String) (setId : Option String) (details : EventDetails) :
    String :=
  etype ++ ":" ++ setId.getD "" ++ ":" ++ detailsNextSet details ++ ":" ++
    detailsThreshold details

/-- The scalar stored in an event's `set_id` field. -/
def scalarOfOptStr : Option String → PyScalar
  | some s => .pstr s
  | none => .pnone

/-- The event payload dict built by `_log_event`. -/
def mkEvent (now etype : String) (setId : Option String)
    (details : EventDetails) : EventRec :=
  { key := eventKey etype setId details, etype := etype,
    set_id := scalarOfOptStr setId, timestamp := now, details := details }

/-- `BinderService._log_event`: refuse the append when an event with the same
effective dedup key already exists. -/
def logEvent (now : String) (st : BState) (etype : String)
    (setId : Option String) (details : EventDetails) : BState :=
  if st.events.any (fun e => e.key == eventKey etype setId details) then st
  else { st with events := st.events ++ [mkEvent now etype setId details] }

/-- `_log_event` lifted to the service. -/
def logEventS (now : String) (svc : Service) (etype : String)
    (setId : Option String) (details : EventDetails) : Service :=
  { svc with state := logEvent now svc.state etype setId details }

/-! ## Progress queries (`get_collection_progress`, `is_set_complete`) -/

/-- `round(x, 2)` on the completion percentage.  (Python rounds floats
half-to-even; the claims never evaluate at a half-way point, where this
embedding rounds half-up.) -/
def round2 (q : ℚ) : ℚ :=
  (round (q * 100) : ℤ) / 100

/-- `owned_unique`: size of `owned_unique_by_set.get(set_id, set())`. -/
def Service.ownedUnique (svc : Service) (setId : String) : Nat :=
  ((alookup svc.ownedIdx setId).getD []).length

/-- The report computed by `get_collection_progress` (sans logging). -/
structure ProgressRpt where
  set_id : String
  owned_unique : Nat
  total_available : Nat
  completion_percentage : ℚ
  remaining : Nat
  is_complete : Bool
  deriving Repr, DecidableEq

/-- `BinderService.get_collection_progress`: raises `ValueError` on an
unknown set id. -/
def Service.getCollectionProgress (svc : Service) (setId : String) :
    Except Unit ProgressRpt :=
  if ¬ svc.catalog.isKnownSet setId then .error ()
  else
    let owned := svc.ownedUnique setId
    let total := svc.catalog.totalCards setId
    let completion : ℚ := if total = 0 then 0 else (owned : ℚ) / total * 100
    .ok { set_id := setId, owned_unique := owned, total_available := total,
          completion_percentage := round2 completion,
          remaining := total - owned,
          is_complete := total - owned = 0 && total > 0 }

/-- `BinderService.is_set_complete` (propagates the unknown-set error). -/
def Service.isSetCompleteE (svc : Service) (setId : String) :
    Except Unit Bool :=
  (svc.getCollectionProgress setId).map (·.is_complete)

/-- The completeness test as a total Boolean (used only where the set id is
known, where it agrees with `isSetCompleteE`). -/
def Service.isCompleteB (svc : Service) (setId : String) : Bool :=
  svc.catalog.totalCards setId - svc.ownedUnique setId = 0 &&
    svc.catalog.totalCards setId > 0

/-! ## Persisted raw state (`repository.load()` output) and sanitization

`load()` always yields a Python dict.  Fields read with a falsy default
(`raw.get("cards", {})`, `raw.get("unlocked_sets", [])`, ...) behave
identically when the field is absent and when it holds the default, so the
embedding collapses "absent" into the default container.  `dict.get(k)` with
no default yields `None` both for an absent key and for a stored `None`, so
single-value fields collapse "absent" into `pnone`. -/

/-- The value of one entry of the raw `cards` dict: either not a dict (the
record validator drops it) or a dict read through the six `rec.get(...)`
calls of `_validate_card_record`. -/
inductive RawRecVal where
  | nonDict
  | dict (card_id set_id quantity_owned first_obtained_at last_obtained_at
      ever_new_discovery : PyScalar)
  deriving Repr, DecidableEq

/-- A raw container that must be a dict to be traversed. -/
inductive RawDict (α : Type) where
  | nonDict
  | dict (entries : List (PyScalar × α))
  deriving Repr, DecidableEq

/-- A raw container that must be a list to be traversed. -/
inductive RawList (α : Type) where
  | nonList
  | list (items : List α)
  deriving Repr, DecidableEq

/-- One entry of the raw `events` list.  `key` distinguishes an absent `key`
field (where `evt.get("key", "")` yields `""`) from a present value (where
`str(value)` is taken, e.g. `"None"` for a stored `None`). -/
inductive RawEventVal where
  | nonDict
  | dict (etype timestamp : PyScalar) (key : Option PyScalar) (set_id : PyScalar)
  deriving Repr, DecidableEq

/-- A non-empty raw persisted dict, as consumed by
`_validate_or_initialize_state`. -/
structure RawState where
  version : PyScalar
  cards : RawDict RawRecVal
  unlocked_sets : RawList PyScalar
  set_milestones : RawDict (RawList PyScalar)
  events : RawList RawEventVal
  pack_history : RawList PyScalar
  deriving Repr, DecidableEq

/-- `repository.load()` output: the empty dict (falsy, short-circuited by
`if not raw`) or a non-empty dict. -/
inductive RawVal where
  | emptyDict
  | dict (r : RawState)
  deriving Repr, DecidableEq

/-- `BinderService._validate_card_record`, checks in source order. -/
def validateCardRecord (cat : Catalog) (key : PyScalar) (rec : RawRecVal) :
    Option CardRecord :=
  match rec with
  | .nonDict => none
  | .dict card_id set_id quantity first last flag =>
      if ¬ key.isStr then none
      else if ¬ card_id.isStr || card_id.asStr = "" then none
      else if ¬ set_id.isStr || ¬ cat.isKnownSet set_id.asStr then none
      else if ¬ cat.isKnownCardInSet card_id.asStr set_id.asStr then none
      else if key.asStr ≠ composeCardKey set_id.asStr card_id.asStr then none
      else if ¬ quantity.isInt || quantity.asInt < 0 then none
      else if ¬ first.isStr || ¬ last.isStr then none
      else if ¬ flag.isBool then none
      else
        some { card_id := card_id.asStr, set_id := set_id.asStr,
               quantity_owned := quantity.asInt,
               first_obtained_at := first.asStr, last_obtained_at := last.asStr,
               ever_new_discovery := flag = .pbool true }

/-- Insertion sort used to embed Python's `sorted` on small int lists. -/
def insertSorted (x : Int) : List Int → List Int
  | [] => [x]
  | y :: ys => if x ≤ y then x :: y :: ys else y :: insertSorted x ys

/-- Python `sorted` on an int list. -/
def sortInts (l : List Int) : List Int :=
  l.foldr insertSorted []

/-- Python `sorted(set(l))`. -/
def sortedDedupInts (l : List Int) : List Int :=
  sortInts l.dedup

/-- The `cards` loop of `_validate_or_initialize_state`. -/
def sanitizeCards (cat : Catalog) : List (PyScalar × RawRecVal) →
    List (String × CardRecord)
  | [] => []
  | (k, rec) :: rest =>
      match validateCardRecord cat k rec with
      | some r => (k.asStr, r) :: sanitizeCards cat rest
      | none => sanitizeCards cat rest

/-- The `set_milestones` loop of `_validate_or_initialize_state`. -/
def sanitizeMilestones (cat : Catalog) :
    List (PyScalar × RawList PyScalar) → List (String × List Int)
  | [] => []
  | (sid, values) :: rest =>
      if ¬ sid.isStr || ¬ cat.isKnownSet sid.asStr then
        sanitizeMilestones cat rest
      else
        match values with
        | .nonList => sanitizeMilestones cat rest
        | .list vs =>
            (sid.asStr,
              sortedDedupInts
                ((vs.filter (fun v => v.isInt && 0 < v.asInt && v.asInt ≤ 100)).map
                  PyScalar.asInt)) ::
              sanitizeMilestones cat rest

/-- The `events` loop of `_validate_or_initialize_state`: an item is kept
verbatim when it is a dict whose `type` and `timestamp` are strings. -/
def sanitizeEvents : List RawEventVal → List EventRec
  | [] => []
  | .nonDict :: rest => sanitizeEvents rest
  | .dict etype ts key sid :: rest =>
      if etype.isStr && ts.isStr then
        { key := (key.map PyScalar.strOf).getD "", etype := etype.asStr,
          set_id := sid, timestamp := ts.asStr, details := .rawD } ::
          sanitizeEvents rest
      else sanitizeEvents rest

/-- `BinderService._validate_or_initialize_state`. -/
def validateOrInit (cfg : ProgCfg) (cat : Catalog) (raw : RawVal) : BState :=
  match raw with
  | .emptyDict => emptyBState
  | .dict r =>
      { version := r.version
        cards :=
          match r.cards with
          | .nonDict => []
          | .dict entries => sanitizeCards cat entries
        unlocked_sets :=
          match r.unlocked_sets with
          | .nonList => []
          | .list items =>
              (items.filter (fun s => s.isStr && cat.isKnownSet s.asStr)).map
                PyScalar.asStr
        set_milestones :=
          match r.set_milestones with
          | .nonDict => []
          | .dict entries => sanitizeMilestones cat entries
        events :=
          match r.events with
          | .nonList => []
          | .list items => sanitizeEvents items
        pack_history :=
          if cfg.maintain_pack_history then
            match r.pack_history with
            | .nonList => []
            | .list items => items.map HistEntry.rawItem
          else [] }

/-- `BinderService._rebuild_indexes`: fold the cards dict in insertion
order, counting a card as owned when its quantity is positive. -/
def rebuildIndexes (cards : List (String × CardRecord)) :
    List (String × List String) :=
  cards.foldl
    (fun idx p =>
      if p.2.quantity_owned > 0 then
        aset idx p.2.set_id (addUnique ((alookup idx p.2.set_id).getD []) p.2.card_id)
      else idx)
    []

/-- `BinderService._ensure_initial_unlock`. -/
def ensureInitialUnlock (now : String) (svc : Service) : Service :=
  match svc.cfg.progression_order with
  | [] => svc
  | first :: _ =>
      if first ∈ svc.state.unlocked_sets then svc
      else
        let st := { svc.state with unlocked_sets := svc.state.unlocked_sets ++ [first] }
        { svc with
          state := logEvent now st "INITIAL_SET_UNLOCKED" (some first) .reasonFirstSet }

/-- `BinderService.__init__`: sanitize the loaded state, rebuild the owned
index, force-unlock the first set of the progression order, persist.  The
initial persist writes exactly the returned service's state. -/
def initService (cfg : ProgCfg) (cat : Catalog) (raw : RawVal) (now : String) :
    Service :=
  let st := validateOrInit cfg cat raw
  ensureInitialUnlock now
    { cfg := cfg, catalog := cat, state := st, ownedIdx := rebuildIndexes st.cards }

/-! ## Ingestion input (`pack_result` as received by `add_cards_to_binder`) -/

/-- One entry of `pack_result["slots"]`: not a dict (skipped silently), or a
dict whose `card_id` field is read by `slot.get("card_id")` (`pnone` covers
both an absent field and a stored `None`). -/
inductive SlotVal where
  | nonDict
  | dict (card_id : PyScalar)
  deriving Repr, DecidableEq

/-- The `slots` field of `pack_result`. -/
inductive SlotsField where
  | notList (v : PyScalar)
  | isList (slots : List SlotVal)
  deriving Repr, DecidableEq

/-- The `pack_result` argument of `add_cards_to_binder`. -/
inductive PackInput where
  | nonDict
  | dict (set_id : PyScalar) (slots : SlotsField)
  deriving Repr, DecidableEq

/-- The errors raised by `add_cards_to_binder`: the three input checks, plus
the `ValueError` escaping from `get_collection_progress` when the
progression order names a set unknown to the catalog. -/
inductive AddErr where
  | notDict
  | badSetId
  | badSlots
  | unknownProgressionSet
  deriving Repr, DecidableEq

/-- The summary dict returned by `add_cards_to_binder`. -/
structure AddOutput where
  set_id : String
  total_slots_processed : Nat
  cards_written : Nat
  new_discoveries : Nat
  duplicate_increments : Nat
  invalid_card_ids : List String
  set_completed : Bool
  newly_unlocked_sets : List String
  deriving Repr, DecidableEq

/-- The per-slot outcome of the validation chain in the slot loop. -/
inductive SlotVerdict where
  /-- `not isinstance(slot, dict)`: skipped with no diagnostic. -/
  | skip
  /-- rejected; carries the string appended to `invalid_card_ids`. -/
  | invalid (reprStr : String)
  /-- accepted; carries the stripped card id. -/
  | valid (cardId : String)
  deriving Repr, DecidableEq

/-- Python `str.strip()`, implemented over the character list so that it
evaluates by kernel reduction (ASCII whitespace, as in the card ids at
hand). -/
def pyStrip (s : String) : String :=
  ⟨((s.data.dropWhile Char.isWhitespace).reverse.dropWhile
      Char.isWhitespace).reverse⟩

/-- The validation chain applied to one slot (source order: dict check,
non-empty-string check, known-card check, known-in-set check). -/
def slotVerdict (cat : Catalog) (packSetId : String) : SlotVal → SlotVerdict
  | .nonDict => .skip
  | .dict raw =>
      if ¬ raw.isStr || raw.asStr = "" then .invalid raw.strOf
      else
        let c := pyStrip raw.asStr
        if ¬ cat.isKnownCard c then .invalid c
        else if ¬ cat.isKnownCardInSet c packSetId then .invalid c
        else .valid c

/-- The mutable loop state of the slot loop of `add_cards_to_binder`. -/
structure SlotLoopSt where
  svc : Service
  inserted_new : Nat
  incremented_duplicates : Nat
  invalid_card_ids : List String
  updated_card_ids : List String
  deriving Repr, DecidableEq

/-- One iteration of the slot loop. -/
def processSlot (now packSetId : String) (ls : SlotLoopSt) (slot : SlotVal) :
    SlotLoopSt :=
  match slotVerdict ls.svc.catalog packSetId slot with
  | .skip => ls
  | .invalid r => { ls with invalid_card_ids := ls.invalid_card_ids ++ [r] }
  | .valid c =>
      match alookup ls.svc.state.cards (composeCardKey packSetId c) with
      | none =>
          { ls with
            svc :=
              { ls.svc with
                state :=
                  { ls.svc.state with
                    cards :=
                      aset ls.svc.state.cards (composeCardKey packSetId c)
                        { card_id := c, set_id := packSetId,
                          quantity_owned := 1, first_obtained_at := now,
                          last_obtained_at := now, ever_new_discovery := true } }
                ownedIdx :=
                  aset ls.svc.ownedIdx packSetId
                    (addUnique ((alookup ls.svc.ownedIdx packSetId).getD []) c) }
            inserted_new := ls.inserted_new + 1
            updated_card_ids := ls.updated_card_ids ++ [c] }
      | some existing =>
          { ls with
            svc :=
              { ls.svc with
                state :=
                  { ls.svc.state with
                    cards :=
                      aset ls.svc.state.cards (composeCardKey packSetId c)
                        { existing with
                          quantity_owned := existing.quantity_owned + 1
                          last_obtained_at := now } } }
            incremented_duplicates := ls.incremented_duplicates + 1
            updated_card_ids := ls.updated_card_ids ++ [c] }

/-- The whole slot loop. -/
def processSlots (now packSetId : String) (ls : SlotLoopSt) :
    List SlotVal → SlotLoopSt
  | [] => ls
  | slot :: rest => processSlots now packSetId (processSlot now packSetId ls slot) rest

/-! ## Progression evaluation (`_evaluate_progression`) -/

/-- An exception raised mid-evaluation carries the partially mutated
in-memory service: a raise in Python leaves all mutations made so far. -/
abbrev EvalRes (α : Type) := Except (AddErr × Service) α

/-- First pass: for every set of the progression order that is among the
changed sets and complete, log a deduplicated `SET_COMPLETED` event.  The
short-circuiting `and` evaluates `is_set_complete` only for changed sets. -/
def pass1 (now : String) (changed : List String) (svc : Service) :
    List String → EvalRes Service
  | [] => .ok svc
  | sid :: rest =>
      if sid ∈ changed then
        match svc.isSetCompleteE sid with
        | .error _ => .error (.unknownProgressionSet, svc)
        | .ok c =>
            pass1 now changed
              (if c then logEventS now svc "SET_COMPLETED" (some sid) .emptyD else svc)
              rest
      else pass1 now changed svc rest

/-- The unlock body of the second pass of `_evaluate_progression`: append
the next set to `unlocked_sets` and log the `NEW_SET_UNLOCKED` event. -/
def unlockStep (now : String) (svc : Service) (sid next : String) : Service :=
  logEventS now
    { svc with
      state :=
        { svc.state with unlocked_sets := svc.state.unlocked_sets ++ [next] } }
    "NEW_SET_UNLOCKED" (some sid) (.nextSet next)

/-- Second pass: for every complete set at position `idx` of the progression
order, unlock position `idx + 1` when it is not yet unlocked, logging a
deduplicated `NEW_SET_UNLOCKED` event.  `is_set_complete` is evaluated for
every position, so an unknown set in the order raises. -/
def pass2 (now : String) (order : List String) :
    List String → Nat → Service → List String → EvalRes (Service × List String)
  | [], _, svc, newly => .ok (svc, newly)
  | sid :: rest, idx, svc, newly =>
      match svc.isSetCompleteE sid with
      | .error _ => .error (.unknownProgressionSet, svc)
      | .ok c =>
          if ¬ c then pass2 now order rest (idx + 1) svc newly
          else if idx + 1 ≥ order.length then pass2 now order rest (idx + 1) svc newly
          else if order.getD (idx + 1) "" ∈ svc.state.unlocked_sets then
            pass2 now order rest (idx + 1) svc newly
          else
            pass2 now order rest (idx + 1)
              (unlockStep now svc sid (order.getD (idx + 1) ""))
              (newly ++ [order.getD (idx + 1) ""])

/-- `BinderService._evaluate_progression`. -/
def evaluateProgression (now : String) (changed : List String) (svc : Service) :
    EvalRes (Service × List String) :=
  match pass1 now changed svc svc.cfg.progression_order with
  | .error e => .error e
  | .ok svc1 => pass2 now svc1.cfg.progression_order svc1.cfg.progression_order 0 svc1 []

/-! ## Milestone tracking (`_update_partial_milestones`) -/

/-- The threshold loop of `_update_partial_milestones`: `achieved` is the
Python set, embedded as an insertion-ordered duplicate-free list. -/
def milestoneLoop (now setId : String) (percent : ℚ) :
    List Int → List Int → Service → (List Int × Service)
  | [], achieved, svc => (achieved, svc)
  | t :: rest, achieved, svc =>
      if percent ≥ (t : ℚ) ∧ t ∉ achieved then
        milestoneLoop now setId percent rest (achieved ++ [t])
          (logEventS now svc "SET_MILESTONE_REACHED" (some setId)
            (.milestone t percent))
      else milestoneLoop now setId percent rest achieved svc

/-- `BinderService._update_partial_milestones` (raises on an unknown set id,
which cannot happen from `add_cards_to_binder`; the raise occurs before any
mutation). -/
def updateMilestones (now : String) (setId : String) (svc : Service) :
    EvalRes Service :=
  match svc.getCollectionProgress setId with
  | .error _ => .error (.unknownProgressionSet, svc)
  | .ok progress =>
      let achieved := (alookup svc.state.set_milestones setId).getD []
      let percent := progress.completion_percentage
      let (achieved', svc') :=
        milestoneLoop now setId percent svc.cfg.milestone_thresholds achieved svc
      .ok
        { svc' with
          state :=
            { svc'.state with
              set_milestones :=
                aset svc'.state.set_milestones setId (sortedDedupInts achieved') } }

/-! ## `add_cards_to_binder` -/

/-- The observable outcome of one `add_cards_to_binder` call: the returned
value or raised exception, the service as left behind by the call (an
exception raised after mutation began leaves the partial mutation in
memory), and how many times `repository.save` ran during the call. -/
structure CallResult where
  res : Except AddErr AddOutput
  svc : Service
  saves : Nat
  deriving Repr

/-- The initial slot-loop state for a call. -/
def initLoopSt (svc : Service) : SlotLoopSt :=
  { svc := svc, inserted_new := 0, incremented_duplicates := 0,
    invalid_card_ids := [], updated_card_ids := [] }

/-- The milestone stage of a call: run only when
`track_partial_milestones` is enabled. -/
def milestoneStage (now packSetId : String) (svc2 : Service) :
    EvalRes Service :=
  if svc2.cfg.track_partial_milestones then updateMilestones now packSetId svc2
  else .ok svc2

/-- The optional pack-history append at the end of a call. -/
def histAppend (now packSetId : String) (cardsAdded invalidIds : List String)
    (svc3 : Service) : Service :=
  if svc3.cfg.maintain_pack_history then
    { svc3 with
      state :=
        { svc3.state with
          pack_history :=
            svc3.state.pack_history ++
              [.entry now packSetId cardsAdded invalidIds] } }
  else svc3

/-- The tail of `add_cards_to_binder` after the slot loop: progression
evaluation, milestone tracking, optional history entry, persist, summary. -/
def addCardsFinish (now packSetId : String) (ls : SlotLoopSt)
    (slotsLen : Nat) : CallResult :=
  match evaluateProgression now [packSetId] ls.svc with
  | .error (e, svcE) => { res := .error e, svc := svcE, saves := 0 }
  | .ok (svc2, newly) =>
      match milestoneStage now packSetId svc2 with
      | .error (e, svcE) => { res := .error e, svc := svcE, saves := 0 }
      | .ok svc3 =>
          { res :=
              .ok
                { set_id := packSetId
                  total_slots_processed := slotsLen
                  cards_written := ls.updated_card_ids.length
                  new_discoveries := ls.inserted_new
                  duplicate_increments := ls.incremented_duplicates
                  invalid_card_ids := ls.invalid_card_ids
                  set_completed :=
                    (histAppend now packSetId ls.updated_card_ids
                      ls.invalid_card_ids svc3).isCompleteB packSetId
                  newly_unlocked_sets := newly }
            svc :=
              histAppend now packSetId ls.updated_card_ids ls.invalid_card_ids
                svc3
            saves := 1 }

/-- The part of `add_cards_to_binder` after the three input checks: slot
loop, then `addCardsFinish`. -/
def addCardsCore (now : String) (svc : Service) (packSetId : String)
    (slots : List SlotVal) : CallResult :=
  addCardsFinish now packSetId
    (processSlots now packSetId (initLoopSt svc) slots) slots.length

/-- `BinderService.add_cards_to_binder`. -/
def addCards (now : String) (svc : Service) (input : PackInput) : CallResult :=
  match input with
  | .nonDict => { res := .error .notDict, svc := svc, saves := 0 }
  | .dict rawSetId slotsField =>
      if !rawSetId.isStr || !svc.catalog.isKnownSet rawSetId.asStr then
        { res := .error .badSetId, svc := svc, saves := 0 }
      else
        match slotsField with
        | .notList _ => { res := .error .badSlots, svc := svc, saves := 0 }
        | .isList slots => addCardsCore now svc rawSetId.asStr slots

/-- The service as left behind by one call (exception or not). -/
def addCardsState (now : String) (svc : Service) (input : PackInput) : Service :=
  (addCards now svc input).svc

/-- Run a sequence of `add_cards_to_binder` calls, each with its own
timestamp, collecting the outputs of the calls that return normally. -/
def runCallsOut (svc : Service) :
    List (String × PackInput) → Service × List AddOutput
  | [] => (svc, [])
  | (now, input) :: rest =>
      let c := addCards now svc input
      let (svcF, outs) := runCallsOut c.svc rest
      match c.res with
      | .ok out => (svcF, out :: outs)
      | .error _ => (svcF, outs)

/-- Run a sequence of calls, keeping only the final service. -/
def runCalls (svc : Service) (calls : List (String × PackInput)) : Service :=
  (runCallsOut svc calls).1

/-! ## Pack engine (`pack_engine.py`) -/

/-- `pack_engine.PACK_SIZE`. -/
def PACK_SIZE : Nat := 10

/-- `pack_engine.PackConfig`.  Slot counts are `Int` (arbitrary Python
ints); the holo-upgrade probability is a rational standing for the float. -/
structure PackConfig where
  rare_slots : Int := 1
  uncommon_slots : Int := 3
  common_slots : Int := 6
  holo_upgrade_chance : ℚ := 1 / 3
  allow_duplicates_within_pack : Bool := true
  pity_after_packs : Option Int := none
  deriving Repr, DecidableEq

/-- The exceptions `open_pack` can raise. -/
inductive PackErr where
  /-- `set_id must be a non-empty string.` -/
  | badSetId
  /-- a `PackConfig.validate` failure -/
  | configError
  /-- `Pool file not found for set ...` (`FileNotFoundError`) -/
  | poolNotFound
  /-- `Invalid pool file format ...` -/
  | poolMalformed
  /-- `Pool '<rarity>' is empty.` -/
  | emptyPool (rarity : String)
  /-- `No available cards left in rarity '<rarity>' ...` -/
  | noAvailable (rarity : String)
  /-- `Pack size invariant violated: ...` -/
  | sizeInvariant
  deriving Repr, DecidableEq

/-- `PackConfig.validate`, checks in source order. -/
def PackConfig.validate (c : PackConfig) : Except PackErr Unit :=
  if c.rare_slots < 0 ∨ c.uncommon_slots < 0 ∨ c.common_slots < 0 then
    .error .configError
  else if c.rare_slots + c.uncommon_slots + c.common_slots ≠ (PACK_SIZE : Int) then
    .error .configError
  else if ¬ (0 ≤ c.holo_upgrade_chance ∧ c.holo_upgrade_chance ≤ 1) then
    .error .configError
  else
    match c.pity_after_packs with
    | some p => if p ≤ 0 then .error .configError else .ok ()
    | none => .ok ()

/-- `random.Random` embedded as an abstract deterministic stream family:
`rnd seed k` is the `random()` value and `choiceAt seed k n` the index
chosen by `choice` on a list of length `n`, at the `k`-th consumption of the
generator seeded with `seed`.  The proof fields state the `random()` output
range that CPython guarantees. -/
structure RandSrc where
  rnd : Int → Nat → ℚ
  choiceAt : Int → Nat → Nat → Nat
  rnd_nonneg : ∀ seed k, 0 ≤ rnd seed k
  rnd_lt_one : ∀ seed k, rnd seed k < 1

/-- `rng.choice(l)` for non-empty `l`: a deterministic index below the
length, consuming one generator step. -/
def choiceFrom (src : RandSrc) (seed : Int) (g : Nat) (l : List String) : String :=
  l.getD (src.choiceAt seed g l.length % l.length) ""

/-- A rarity-pool file on disk, as far as `_load_pool` inspects it. -/
inductive PoolFileVal where
  /-- parses, but `data.get("pools")` is not a dict -/
  | noPoolsDict
  /-- parses, with the four rarity buckets as read by `pools.get(r, [])`
  (absent collapses to the empty list) -/
  | withPools (common uncommon rare holo : RawList PyScalar)
  deriving Repr, DecidableEq

/-- A card-metadata file on disk, as far as `_read_card_name` inspects it. -/
inductive MetaFile where
  | missing
  | unparsable
  /-- parses; carries `data.get("name")` -/
  | obj (name : PyScalar)
  deriving Repr, DecidableEq

/-- The file contents `open_pack` can read: per set a pool file under
`pools_dir`, and per (set, card) a metadata file under the metadata
directory. -/
structure World where
  poolFile : String → Option PoolFileVal
  meta : String → String → MetaFile

/-- The four normalized pools produced by `_load_pool`. -/
structure Pools where
  common : List String
  uncommon : List String
  rare : List String
  holo : List String
  deriving Repr, DecidableEq

/-- `pack_engine._load_pool`. -/
def loadPool (w : World) (setId : String) : Except PackErr Pools :=
  match w.poolFile setId with
  | none => .error .poolNotFound
  | some .noPoolsDict => .error .poolMalformed
  | some (.withPools c u r h) =>
      match c, u, r, h with
      | .list cs, .list us, .list rs, .list hs =>
          .ok { common := cs.map PyScalar.strOf, uncommon := us.map PyScalar.strOf,
                rare := rs.map PyScalar.strOf, holo := hs.map PyScalar.strOf }
      | _, _, _, _ => .error .poolMalformed

/-- `pack_engine._read_card_name`. -/
def readCardName (w : World) (setId cardId : String) : String :=
  match w.meta setId cardId with
  | .missing => cardId
  | .unparsable => cardId
  | .obj name =>
      match name with
      | .pstr s => if pyStrip s ≠ "" then s else cardId
      | _ => cardId

/-- `pack_engine._pick_from_pool`: returns the chosen card and the advanced
generator position. -/
def pickFromPool (rarity : String) (pool : List String) (src : RandSrc)
    (seed : Int) (g : Nat) (used : List String) (allowDup : Bool) :
    Except PackErr (String × Nat) :=
  if pool = [] then .error (.emptyPool rarity)
  else if allowDup then .ok (choiceFrom src seed g pool, g + 1)
  else if pool.filter (fun c => c ∉ used) = [] then
    .error (.noAvailable rarity)
  else .ok (choiceFrom src seed g (pool.filter (fun c => c ∉ used)), g + 1)

/-- One slot of the draw result. -/
structure PSlot where
  slot_index : Nat
  slot_type : String
  rarity : String
  card_id : String
  card_name : String
  is_new : Bool
  is_duplicate : Bool
  deriving Repr, DecidableEq

/-- `round(x, 6)` applied to the logged raw roll. -/
def round6 (q : ℚ) : ℚ :=
  (round (q * 1000000) : ℤ) / 1000000

/-- One `rare_slot_rolls` diagnostic entry. -/
structure RollDbg where
  rare_slot_index : Nat
  roll : ℚ
  threshold : ℚ
  upgraded_to_holo : Bool
  deriving Repr, DecidableEq

/-- The running position of the drawing loops: generator step, next
`slot_index`, and the `used_in_pack` set. -/
structure DrawSt where
  g : Nat
  slotIndex : Nat
  used : List String
  deriving Repr, DecidableEq

/-- The rare-slot loop of `open_pack`: per slot one `random()` roll decides
the holo upgrade (only when the holo pool is non-empty), then one draw from
the resolved pool. -/
def drawRare (src : RandSrc) (seed : Int) (chance : ℚ) (allowDup : Bool)
    (rarePool holoPool : List String) (owned : List String)
    (nameOf : String → String) :
    Nat → Nat → DrawSt → Except PackErr (List PSlot × List RollDbg × DrawSt)
  | 0, _, st => .ok ([], [], st)
  | n + 1, i, st =>
      match pickFromPool
          (if decide (src.rnd seed st.g < chance) && decide (holoPool ≠ [])
            then "holo" else "rare")
          (if decide (src.rnd seed st.g < chance) && decide (holoPool ≠ [])
            then holoPool else rarePool)
          src seed (st.g + 1) st.used allowDup with
      | .error e => .error e
      | .ok (cardId, g2) =>
          match drawRare src seed chance allowDup rarePool holoPool owned
              nameOf n (i + 1)
              { g := g2, slotIndex := st.slotIndex + 1,
                used := addUnique st.used cardId } with
          | .error e => .error e
          | .ok (slots, dbgs, st2) =>
              .ok
                ({ slot_index := st.slotIndex, slot_type := "rare",
                   rarity :=
                     if decide (src.rnd seed st.g < chance) &&
                         decide (holoPool ≠ []) then "holo" else "rare",
                   card_id := cardId, card_name := nameOf cardId,
                   is_new := cardId ∉ owned,
                   is_duplicate := ¬ cardId ∉ owned } :: slots,
                 { rare_slot_index := i + 1,
                   roll := round6 (src.rnd seed st.g), threshold := chance,
                   upgraded_to_holo :=
                     decide (src.rnd seed st.g < chance) &&
                       decide (holoPool ≠ []) } :: dbgs,
                 st2)

/-- The uncommon/common loops of `open_pack`: `n` draws from a fixed pool. -/
def drawFixed (src : RandSrc) (seed : Int) (allowDup : Bool) (rarity : String)
    (pool : List String) (owned : List String) (nameOf : String → String) :
    Nat → DrawSt → Except PackErr (List PSlot × DrawSt)
  | 0, st => .ok ([], st)
  | n + 1, st =>
      match pickFromPool rarity pool src seed st.g st.used allowDup with
      | .error e => .error e
      | .ok (cardId, g2) =>
          match drawFixed src seed allowDup rarity pool owned nameOf n
              { g := g2, slotIndex := st.slotIndex + 1,
                used := addUnique st.used cardId } with
          | .error e => .error e
          | .ok (slots, st2) =>
              .ok
                ({ slot_index := st.slotIndex, slot_type := rarity,
                   rarity := rarity, card_id := cardId,
                   card_name := nameOf cardId, is_new := cardId ∉ owned,
                   is_duplicate := ¬ cardId ∉ owned } :: slots, st2)

/-- The result dict of `open_pack`. -/
structure PackResultR where
  set_id : String
  seed : Int
  config : PackConfig
  pools_dir : String
  holo_upgrade_probability : ℚ
  rare_slot_rolls : List RollDbg
  slots : List PSlot
  total_cards : Nat
  pack_size : Nat
  new_cards : Nat
  duplicate_cards : Nat
  deriving Repr, DecidableEq

/-- `pack_engine.open_pack`.  The binder state is taken already normalized
to the owned-card-id set (`_normalize_binder_state` output); the RNG is the
stream family `src` seeded once with `seed`. -/
def openPack (setId : String) (cfg : PackConfig) (owned : List String)
    (src : RandSrc) (seed : Int) (poolsDirName : String) (w : World) :
    Except PackErr PackResultR :=
  if setId = "" then .error .badSetId
  else
    match cfg.validate with
    | .error e => .error e
    | .ok _ =>
        match loadPool w setId with
        | .error e => .error e
        | .ok pools =>
            match drawRare src seed cfg.holo_upgrade_chance
                cfg.allow_duplicates_within_pack pools.rare pools.holo owned
                (fun c => readCardName w setId c) cfg.rare_slots.toNat 0
                { g := 0, slotIndex := 1, used := [] } with
            | .error e => .error e
            | .ok (rareSlots, rollDbg, st1) =>
                match drawFixed src seed cfg.allow_duplicates_within_pack
                    "uncommon" pools.uncommon owned
                    (fun c => readCardName w setId c)
                    cfg.uncommon_slots.toNat st1 with
                | .error e => .error e
                | .ok (uncSlots, st2) =>
                    match drawFixed src seed
                        cfg.allow_duplicates_within_pack "common"
                        pools.common owned
                        (fun c => readCardName w setId c)
                        cfg.common_slots.toNat st2 with
                    | .error e => .error e
                    | .ok (comSlots, _st3) =>
                        if (rareSlots ++ uncSlots ++ comSlots).length ≠
                            PACK_SIZE then .error .sizeInvariant
                        else
                          .ok { set_id := setId, seed := seed, config := cfg,
                                pools_dir := poolsDirName,
                                holo_upgrade_probability :=
                                  cfg.holo_upgrade_chance,
                                rare_slot_rolls := rollDbg,
                                slots := rareSlots ++ uncSlots ++ comSlots,
                                total_cards :=
                                  (rareSlots ++ uncSlots ++ comSlots).length,
                                pack_size :=
                                  (rareSlots ++ uncSlots ++ comSlots).length,
                                new_cards :=
                                  ((rareSlots ++ uncSlots ++ comSlots).filter
                                    (fun s => s.is_new)).length,
                                duplicate_cards :=
                                  (rareSlots ++ uncSlots ++ comSlots).length -
                                    ((rareSlots ++ uncSlots ++
                                      comSlots).filter
                                      (fun s => s.is_new)).length }

/-! ## Lemma infrastructure: how the event log evolves

Every mutation of `state["events"]` in the source goes through `_log_event`,
which appends one event whose dedup key is not yet present.  `LogSeq P es es'`
captures that `es'` arises from `es` by such guarded appends, every appended
event satisfying `P`. -/

/-- The event log contains no two entries with the same dedup key. -/
def distinctKeys (es : List EventRec) : Prop :=
  es.Pairwise (fun a b => a.key ≠ b.key)

instance (es : List EventRec) : Decidable (distinctKeys es) :=
  List.instDecidablePairwise es

/-- Number of events with dedup key `k`. -/
def countKey (k : String) (es : List EventRec) : Nat :=
  es.countP (fun e => e.key == k)

/-- `es'` arises from `es` by appends of fresh-keyed events satisfying `P`. -/
inductive LogSeq (P : EventRec → Prop) : List EventRec → List EventRec → Prop where
  | refl (es : List EventRec) : LogSeq P es es
  | snoc {es es' : List EventRec} {e : EventRec} (h : LogSeq P es es')
      (fresh : ∀ x ∈ es', x.key ≠ e.key) (hP : P e) : LogSeq P es (es' ++ [e])

theorem LogSeq.trans {P : EventRec → Prop} {es es' es'' : List EventRec}
    (h1 : LogSeq P es es') (h2 : LogSeq P es' es'') : LogSeq P es es'' := by
  induction h2 with
  | refl => exact h1
  | snoc h fresh hP ih => exact .snoc ih fresh hP

theorem LogSeq.mono {P Q : EventRec → Prop} (hPQ : ∀ e, P e → Q e)
    {es es' : List EventRec} (h : LogSeq P es es') : LogSeq Q es es' := by
  induction h with
  | refl => exact .refl _
  | snoc h fresh hP ih => exact .snoc ih fresh (hPQ _ hP)

theorem LogSeq.distinct {P : EventRec → Prop} {es es' : List EventRec}
    (h : LogSeq P es es') (hd : distinctKeys es) : distinctKeys es' := by
  induction h with
  | refl => exact hd
  | snoc h fresh hP ih =>
      refine List.pairwise_append.mpr ⟨ih, List.pairwise_singleton _ _, ?_⟩
      intro a ha b hb
      rcases List.mem_singleton.mp hb with rfl
      exact fresh a ha

theorem countKey_append (k : String) (es t : List EventRec) :
    countKey k (es ++ t) = countKey k es + countKey k t := by
  simp [countKey, List.countP_append]

theorem countKey_eq_zero {k : String} {es : List EventRec}
    (h : ∀ x ∈ es, x.key ≠ k) : countKey k es = 0 := by
  simp only [countKey, List.countP_eq_zero]
  intro x hx
  simpa using h x hx

theorem LogSeq.countKey_le {P : EventRec → Prop} {es es' : List EventRec}
    (h : LogSeq P es es') (k : String) :
    countKey k es' ≤ max (countKey k es) 1 := by
  induction h with
  | refl => exact le_max_left _ _
  | @snoc es₁ e h fresh hP ih =>
      rw [countKey_append]
      by_cases hk : e.key = k
      · have h0 : countKey k es₁ = 0 := by
          apply countKey_eq_zero
          intro x hx
          rw [← hk]
          exact fresh x hx
        have h1 : countKey k [e] ≤ 1 := by
          simp only [countKey, List.countP_cons, List.countP_nil]
          split <;> simp
        omega
      · have h1 : countKey k [e] = 0 := by
          apply countKey_eq_zero
          intro x hx
          rcases List.mem_singleton.mp hx with rfl
          exact hk
        omega

theorem logSeq_countP_eq {P : EventRec → Prop} {es es' : List EventRec}
    (h : LogSeq P es es') (Q : EventRec → Bool) (hQ : ∀ e, P e → Q e = false) :
    es'.countP Q = es.countP Q := by
  induction h with
  | refl => rfl
  | @snoc es₁ e h fresh hP ih =>
      rw [List.countP_append, ih]
      simp [List.countP_cons, hQ e hP]

theorem LogSeq.exists_mono {P : EventRec → Prop} {R : EventRec → Prop}
    {es es' : List EventRec} (h : LogSeq P es es') (he : ∃ e ∈ es, R e) :
    ∃ e ∈ es', R e := by
  induction h with
  | refl => exact he
  | snoc h fresh hP ih =>
      obtain ⟨e, he', hr⟩ := ih
      exact ⟨e, List.mem_append_left _ he', hr⟩

theorem logEvent_logSeq {P : EventRec → Prop} (now : String) (st : BState)
    (etype : String) (setId : Option String) (details : EventDetails)
    (hP : P (mkEvent now etype setId details)) :
    LogSeq P st.events (logEvent now st etype setId details).events := by
  by_cases hguard :
      (st.events.any fun e => e.key == eventKey etype setId details) = true
  · simp only [logEvent, hguard, if_true]
    exact .refl _
  · simp only [logEvent, hguard, if_false]
    refine LogSeq.snoc (e := mkEvent now etype setId details) (.refl _) ?_ hP
    intro x hx hkey
    simp only [List.any_eq_true, not_exists, not_and] at hguard
    exact absurd (by simp [mkEvent] at hkey; simp [hkey]) (hguard x hx)

theorem logEvent_exists (now : String) (st : BState) (etype : String)
    (setId : Option String) (details : EventDetails) :
    ∃ e ∈ (logEvent now st etype setId details).events,
      e.key = eventKey etype setId details := by
  by_cases hguard :
      (st.events.any fun e => e.key == eventKey etype setId details) = true
  · simp only [logEvent, hguard, if_true]
    simp only [List.any_eq_true] at hguard
    obtain ⟨e, he, hk⟩ := hguard
    exact ⟨e, he, by simpa using hk⟩
  · simp only [logEvent, hguard, if_false]
    exact ⟨mkEvent now etype setId details,
      List.mem_append_right _ (List.mem_singleton.mpr rfl), rfl⟩

/-! ## Frame lemmas: what each stage of ingestion leaves untouched -/

/-- The service left in memory by a possibly-raising evaluation stage. -/
def resSvc : EvalRes Service → Service
  | .ok s => s
  | .error (_, s) => s

/-- Same, for the stage returning the newly-unlocked list. -/
def resSvc2 : EvalRes (Service × List String) → Service
  | .ok (s, _) => s
  | .error (_, s) => s

theorem logEvent_frame (now : String) (st : BState) (etype : String)
    (setId : Option String) (details : EventDetails) :
    (logEvent now st etype setId details).cards = st.cards ∧
    (logEvent now st etype setId details).unlocked_sets = st.unlocked_sets ∧
    (logEvent now st etype setId details).set_milestones = st.set_milestones ∧
    (logEvent now st etype setId details).pack_history = st.pack_history ∧
    (logEvent now st etype setId details).version = st.version := by
  unfold logEvent
  split <;> simp

theorem logEventS_frame (now : String) (svc : Service) (etype : String)
    (setId : Option String) (details : EventDetails) :
    (logEventS now svc etype setId details).cfg = svc.cfg ∧
    (logEventS now svc etype setId details).catalog = svc.catalog ∧
    (logEventS now svc etype setId details).ownedIdx = svc.ownedIdx ∧
    (logEventS now svc etype setId details).state.cards = svc.state.cards ∧
    (logEventS now svc etype setId details).state.unlocked_sets =
      svc.state.unlocked_sets ∧
    (logEventS now svc etype setId details).state.set_milestones =
      svc.state.set_milestones ∧
    (logEventS now svc etype setId details).state.pack_history =
      svc.state.pack_history := by
  obtain ⟨h1, h2, h3, h4, h5⟩ := logEvent_frame now svc.state etype setId details
  exact ⟨rfl, rfl, rfl, h1, h2, h3, h4⟩

theorem isCompleteB_congr {a b : Service} (hc : a.catalog = b.catalog)
    (ho : a.ownedIdx = b.ownedIdx) (s : String) :
    a.isCompleteB s = b.isCompleteB s := by
  unfold Service.isCompleteB Service.ownedUnique
  rw [hc, ho]

/-- `is_set_complete` never raises on a known set, where it computes
`isCompleteB`; on an unknown set it raises. -/
theorem isSetCompleteE_eq (svc : Service) (s : String) :
    svc.isSetCompleteE s =
      if svc.catalog.isKnownSet s then .ok (svc.isCompleteB s) else .error () := by
  unfold Service.isSetCompleteE Service.getCollectionProgress Service.isCompleteB
  by_cases h : svc.catalog.isKnownSet s <;> simp [h, Except.map]

theorem processSlot_frame (now packSetId : String) (ls : SlotLoopSt)
    (slot : SlotVal) :
    (processSlot now packSetId ls slot).svc.cfg = ls.svc.cfg ∧
    (processSlot now packSetId ls slot).svc.catalog = ls.svc.catalog ∧
    (processSlot now packSetId ls slot).svc.state.events = ls.svc.state.events ∧
    (processSlot now packSetId ls slot).svc.state.unlocked_sets =
      ls.svc.state.unlocked_sets ∧
    (processSlot now packSetId ls slot).svc.state.set_milestones =
      ls.svc.state.set_milestones ∧
    (processSlot now packSetId ls slot).svc.state.pack_history =
      ls.svc.state.pack_history := by
  unfold processSlot
  rcases slotVerdict ls.svc.catalog packSetId slot with _ | r | c <;> simp
  rcases alookup ls.svc.state.cards (composeCardKey packSetId c) with _ | ex <;> simp

theorem processSlots_frame (now packSetId : String) :
    ∀ (l : List SlotVal) (ls : SlotLoopSt),
    (processSlots now packSetId ls l).svc.cfg = ls.svc.cfg ∧
    (processSlots now packSetId ls l).svc.catalog = ls.svc.catalog ∧
    (processSlots now packSetId ls l).svc.state.events = ls.svc.state.events ∧
    (processSlots now packSetId ls l).svc.state.unlocked_sets =
      ls.svc.state.unlocked_sets ∧
    (processSlots now packSetId ls l).svc.state.set_milestones =
      ls.svc.state.set_milestones ∧
    (processSlots now packSetId ls l).svc.state.pack_history =
      ls.svc.state.pack_history
  | [], ls => by simp [processSlots]
  | slot :: rest, ls => by
      have h1 := processSlot_frame now packSetId ls slot
      have h2 := processSlots_frame now packSetId rest (processSlot now packSetId ls slot)
      unfold processSlots
      exact ⟨h2.1.trans h1.1, h2.2.1.trans h1.2.1, h2.2.2.1.trans h1.2.2.1,
        h2.2.2.2.1.trans h1.2.2.2.1, h2.2.2.2.2.1.trans h1.2.2.2.2.1,
        h2.2.2.2.2.2.trans h1.2.2.2.2.2⟩

theorem pass1_frame (now : String) (changed : List String) :
    ∀ (l : List String) (svc : Service),
    (resSvc (pass1 now changed svc l)).cfg = svc.cfg ∧
    (resSvc (pass1 now changed svc l)).catalog = svc.catalog ∧
    (resSvc (pass1 now changed svc l)).ownedIdx = svc.ownedIdx ∧
    (resSvc (pass1 now changed svc l)).state.cards = svc.state.cards ∧
    (resSvc (pass1 now changed svc l)).state.unlocked_sets =
      svc.state.unlocked_sets ∧
    (resSvc (pass1 now changed svc l)).state.set_milestones =
      svc.state.set_milestones ∧
    (resSvc (pass1 now changed svc l)).state.pack_history =
      svc.state.pack_history
  | [], svc => by simp [pass1, resSvc]
  | sid :: rest, svc => by
      unfold pass1
      split
      · rcases hE : svc.isSetCompleteE sid with e | c
        · simp [resSvc]
        · simp only []
          rcases c with _ | _
          · simpa using pass1_frame now changed rest svc
          · simp only [if_true]
            have hl := logEventS_frame now svc "SET_COMPLETED" (some sid) .emptyD
            have ih :=
              pass1_frame now changed rest
                (logEventS now svc "SET_COMPLETED" (some sid) .emptyD)
            exact ⟨ih.1.trans hl.1, ih.2.1.trans hl.2.1, ih.2.2.1.trans hl.2.2.1,
              ih.2.2.2.1.trans hl.2.2.2.1, ih.2.2.2.2.1.trans hl.2.2.2.2.1,
              ih.2.2.2.2.2.1.trans hl.2.2.2.2.2.1,
              ih.2.2.2.2.2.2.trans hl.2.2.2.2.2.2⟩
      · exact pass1_frame now changed rest svc

theorem pass1_logSeq {P : EventRec → Prop} (now : String) (changed : List String)
    (hP : ∀ sid ∈ changed, P (mkEvent now "SET_COMPLETED" (some sid) .emptyD)) :
    ∀ (l : List String) (svc : Service),
    LogSeq P svc.state.events (resSvc (pass1 now changed svc l)).state.events
  | [], svc => by simpa [pass1, resSvc] using LogSeq.refl (P := P) svc.state.events
  | sid :: rest, svc => by
      unfold pass1
      split
      · rename_i hmem
        rcases hE : svc.isSetCompleteE sid with e | c
        · simpa [resSvc] using LogSeq.refl (P := P) svc.state.events
        · simp only []
          rcases c with _ | _
          · simpa using pass1_logSeq now changed hP rest svc
          · simp only [if_true]
            have hstep :=
              logEvent_logSeq (P := P) now svc.state "SET_COMPLETED" (some sid)
                .emptyD (hP sid hmem)
            have ih :=
              pass1_logSeq now changed hP rest
                (logEventS now svc "SET_COMPLETED" (some sid) .emptyD)
            exact hstep.trans ih
      · exact pass1_logSeq now changed hP rest svc

theorem unlockStep_frame (now : String) (svc : Service) (sid next : String) :
    (unlockStep now svc sid next).cfg = svc.cfg ∧
    (unlockStep now svc sid next).catalog = svc.catalog ∧
    (unlockStep now svc sid next).ownedIdx = svc.ownedIdx ∧
    (unlockStep now svc sid next).state.cards = svc.state.cards ∧
    (unlockStep now svc sid next).state.set_milestones = svc.state.set_milestones ∧
    (unlockStep now svc sid next).state.pack_history = svc.state.pack_history := by
  have hl :=
    logEventS_frame now
      { svc with
        state :=
          { svc.state with unlocked_sets := svc.state.unlocked_sets ++ [next] } }
      "NEW_SET_UNLOCKED" (some sid) (.nextSet next)
  exact ⟨hl.1, hl.2.1, hl.2.2.1, hl.2.2.2.1, hl.2.2.2.2.2.1, hl.2.2.2.2.2.2⟩

theorem unlockStep_unlocked (now : String) (svc : Service) (sid next : String) :
    (unlockStep now svc sid next).state.unlocked_sets =
      svc.state.unlocked_sets ++ [next] :=
  (logEventS_frame now _ "NEW_SET_UNLOCKED" (some sid) (.nextSet next)).2.2.2.2.1

theorem pass2_frame (now : String) (order : List String) :
    ∀ (rest : List String) (idx : Nat) (svc : Service) (newly : List String),
    (resSvc2 (pass2 now order rest idx svc newly)).cfg = svc.cfg ∧
    (resSvc2 (pass2 now order rest idx svc newly)).catalog = svc.catalog ∧
    (resSvc2 (pass2 now order rest idx svc newly)).ownedIdx = svc.ownedIdx ∧
    (resSvc2 (pass2 now order rest idx svc newly)).state.cards = svc.state.cards ∧
    (resSvc2 (pass2 now order rest idx svc newly)).state.set_milestones =
      svc.state.set_milestones ∧
    (resSvc2 (pass2 now order rest idx svc newly)).state.pack_history =
      svc.state.pack_history
  | [], idx, svc, newly => by simp [pass2, resSvc2]
  | sid :: rest, idx, svc, newly => by
      show (resSvc2 (pass2 now order (sid :: rest) idx svc newly)).cfg = _ ∧ _
      unfold pass2
      rcases hE : svc.isSetCompleteE sid with e | c
      · simp [resSvc2]
      · simp only []
        split
        · exact pass2_frame now order rest (idx + 1) svc newly
        · split
          · exact pass2_frame now order rest (idx + 1) svc newly
          · split
            · exact pass2_frame now order rest (idx + 1) svc newly
            · have hu :=
                unlockStep_frame now svc sid (order.getD (idx + 1) "")
              have ih :=
                pass2_frame now order rest (idx + 1)
                  (unlockStep now svc sid (order.getD (idx + 1) ""))
                  (newly ++ [order.getD (idx + 1) ""])
              exact ⟨ih.1.trans hu.1, ih.2.1.trans hu.2.1, ih.2.2.1.trans hu.2.2.1,
                ih.2.2.2.1.trans hu.2.2.2.1, ih.2.2.2.2.1.trans hu.2.2.2.2.1,
                ih.2.2.2.2.2.trans hu.2.2.2.2.2⟩

theorem pass2_unlocked_ext (now : String) (order : List String)
    (rest : List String) :
    ∀ (idx : Nat) (svc : Service) (newly : List String),
    ∃ t, (resSvc2 (pass2 now order rest idx svc newly)).state.unlocked_sets =
      svc.state.unlocked_sets ++ t := by
  induction rest with
  | nil => intro idx svc newly; exact ⟨[], by simp [pass2, resSvc2]⟩
  | cons sid rest ih =>
      intro idx svc newly
      unfold pass2
      rcases hE : svc.isSetCompleteE sid with e | c
      · exact ⟨[], by simp [resSvc2]⟩
      · simp only []
        split
        · exact ih (idx + 1) svc newly
        · split
          · exact ih (idx + 1) svc newly
          · split
            · exact ih (idx + 1) svc newly
            · obtain ⟨t, ht⟩ :=
                ih (idx + 1) (unlockStep now svc sid (order.getD (idx + 1) ""))
                  (newly ++ [order.getD (idx + 1) ""])
              refine ⟨order.getD (idx + 1) "" :: t, ?_⟩
              rw [ht, unlockStep_unlocked]
              simp [List.append_assoc]

theorem pass2_logSeq {P : EventRec → Prop} (now : String) (order : List String)
    (hP : ∀ sid next, P (mkEvent now "NEW_SET_UNLOCKED" (some sid) (.nextSet next)))
    (rest : List String) :
    ∀ (idx : Nat) (svc : Service) (newly : List String),
    LogSeq P svc.state.events
      (resSvc2 (pass2 now order rest idx svc newly)).state.events := by
  induction rest with
  | nil =>
      intro idx svc newly
      simpa [pass2, resSvc2] using LogSeq.refl (P := P) svc.state.events
  | cons sid rest ih =>
      intro idx svc newly
      unfold pass2
      rcases hE : svc.isSetCompleteE sid with e | c
      · simpa [resSvc2] using LogSeq.refl (P := P) svc.state.events
      · simp only []
        split
        · exact ih (idx + 1) svc newly
        · split
          · exact ih (idx + 1) svc newly
          · split
            · exact ih (idx + 1) svc newly
            · have hstep :
                  LogSeq P svc.state.events
                    (unlockStep now svc sid (order.getD (idx + 1) "")).state.events :=
                logEvent_logSeq now
                  ({ svc with
                    state :=
                      { svc.state with
                        unlocked_sets :=
                          svc.state.unlocked_sets ++
                            [order.getD (idx + 1) ""] } } : Service).state
                  "NEW_SET_UNLOCKED" (some sid)
                  (.nextSet (order.getD (idx + 1) ""))
                  (hP sid (order.getD (idx + 1) ""))
              exact hstep.trans
                (ih (idx + 1) (unlockStep now svc sid (order.getD (idx + 1) ""))
                  (newly ++ [order.getD (idx + 1) ""]))

theorem pass2_newly_sub (now : String) (order : List String)
    (rest : List String) :
    ∀ (idx : Nat) (svc : Service) (newly : List String)
      (svcF : Service) (newlyF : List String),
    pass2 now order rest idx svc newly = .ok (svcF, newlyF) →
    ∀ x ∈ newlyF, x ∈ newly ∨ x ∈ svcF.state.unlocked_sets := by
  induction rest with
  | nil =>
      intro idx svc newly svcF newlyF h x hx
      simp only [pass2, Except.ok.injEq, Prod.mk.injEq] at h
      obtain ⟨rfl, rfl⟩ := h
      exact .inl hx
  | cons sid rest ih =>
      intro idx svc newly svcF newlyF h x hx
      unfold pass2 at h
      rcases hE : svc.isSetCompleteE sid with e | c <;> rw [hE] at h
      · simp at h
      · simp only [] at h
        split at h
        · exact ih (idx + 1) svc newly svcF newlyF h x hx
        · split at h
          · exact ih (idx + 1) svc newly svcF newlyF h x hx
          · split at h
            · exact ih (idx + 1) svc newly svcF newlyF h x hx
            · rcases ih (idx + 1) _ _ svcF newlyF h x hx with hin | hin
              · rcases List.mem_append.mp hin with hin' | hin'
                · exact .inl hin'
                · right
                  have hxeq : x = order.getD (idx + 1) "" :=
                    List.mem_singleton.mp hin'
                  have hunl :
                      x ∈ (unlockStep now svc sid
                        (order.getD (idx + 1) "")).state.unlocked_sets := by
                    rw [unlockStep_unlocked, hxeq]
                    exact List.mem_append_right _ (List.mem_singleton.mpr rfl)
                  obtain ⟨t, ht⟩ :=
                    pass2_unlocked_ext now order rest (idx + 1)
                      (unlockStep now svc sid (order.getD (idx + 1) ""))
                      (newly ++ [order.getD (idx + 1) ""])
                  rw [h] at ht
                  simp only [resSvc2] at ht
                  rw [ht]
                  exact List.mem_append_left _ hunl
              · exact .inr hin

theorem pass2_newly_frozen (now : String) (order : List String)
    (rest : List String) :
    ∀ (idx : Nat) (svc : Service) (newly : List String)
      (svcF : Service) (newlyF : List String) (x : String),
    x ∈ svc.state.unlocked_sets →
    pass2 now order rest idx svc newly = .ok (svcF, newlyF) →
    (x ∈ newlyF ↔ x ∈ newly) := by
  induction rest with
  | nil =>
      intro idx svc newly svcF newlyF x hx h
      simp only [pass2, Except.ok.injEq, Prod.mk.injEq] at h
      obtain ⟨rfl, rfl⟩ := h
      rfl
  | cons sid rest ih =>
      intro idx svc newly svcF newlyF x hx h
      unfold pass2 at h
      rcases hE : svc.isSetCompleteE sid with e | c <;> rw [hE] at h
      · simp at h
      · simp only [] at h
        split at h
        · exact ih (idx + 1) svc newly svcF newlyF x hx h
        · split at h
          · exact ih (idx + 1) svc newly svcF newlyF x hx h
          · split at h
            · exact ih (idx + 1) svc newly svcF newlyF x hx h
            · rename_i hnotin
              have hxne : x ≠ order.getD (idx + 1) "" := by
                intro hcontra
                rw [hcontra] at hx
                exact hnotin hx
              have hx' :
                  x ∈ (unlockStep now svc sid
                    (order.getD (idx + 1) "")).state.unlocked_sets := by
                rw [unlockStep_unlocked]
                exact List.mem_append_left _ hx
              rw [ih (idx + 1) _ _ svcF newlyF x hx' h]
              constructor
              · intro hmem
                rcases List.mem_append.mp hmem with hmem' | hmem'
                · exact hmem'
                · exact absurd (List.mem_singleton.mp hmem') hxne
              · exact fun hmem => List.mem_append_left _ hmem

theorem pass2_complete_unlock (now : String) (order : List String)
    (rest : List String) :
    ∀ (idx : Nat) (svc : Service) (newly : List String)
      (svcF : Service) (newlyF : List String),
    pass2 now order rest idx svc newly = .ok (svcF, newlyF) →
    ∀ k, k < rest.length → svc.isCompleteB (rest.getD k "") = true →
      idx + k + 1 < order.length →
      order.getD (idx + k + 1) "" ∈ svcF.state.unlocked_sets := by
  induction rest with
  | nil =>
      intro idx svc newly svcF newlyF h k hk
      exact absurd hk (by simp)
  | cons sid rest ih =>
      intro idx svc newly svcF newlyF h k hk hcomp hlen
      unfold pass2 at h
      rcases hE : svc.isSetCompleteE sid with e | c <;> rw [hE] at h
      · simp at h
      · simp only [] at h
        rcases k with _ | k
        · -- head position: sid is complete, so order[idx+1] gets unlocked
          simp only [List.getD_cons_zero] at hcomp
          have hcval : c = true := by
            rw [isSetCompleteE_eq] at hE
            split at hE
            · rw [hcomp] at hE
              exact (Except.ok.injEq _ _).mp hE.symm
            · simp at hE
          subst hcval
          simp only [not_true, if_false] at h
          have hidx : ¬ idx + 1 ≥ order.length := by omega
          rw [if_neg hidx] at h
          split at h
          · rename_i hin
            obtain ⟨t, ht⟩ :=
              pass2_unlocked_ext now order rest (idx + 1) svc newly
            rw [h] at ht
            simp only [resSvc2] at ht
            rw [show idx + 0 + 1 = idx + 1 by omega, ht]
            exact List.mem_append_left _ hin
          · obtain ⟨t, ht⟩ :=
              pass2_unlocked_ext now order rest (idx + 1)
                (unlockStep now svc sid (order.getD (idx + 1) ""))
                (newly ++ [order.getD (idx + 1) ""])
            rw [h] at ht
            simp only [resSvc2] at ht
            rw [show idx + 0 + 1 = idx + 1 by omega, ht, unlockStep_unlocked]
            exact List.mem_append_left _ (by simp)
        · -- tail position: recurse with idx + 1
          simp only [List.getD_cons_succ] at hcomp
          have harith : idx + 1 + k + 1 = idx + (k + 1) + 1 := by omega
          split at h
          · exact harith ▸ ih (idx + 1) svc newly svcF newlyF h k
              (by simpa using hk) hcomp (by omega)
          · split at h
            · exact harith ▸ ih (idx + 1) svc newly svcF newlyF h k
                (by simpa using hk) hcomp (by omega)
            · split at h
              · exact harith ▸ ih (idx + 1) svc newly svcF newlyF h k
                  (by simpa using hk) hcomp (by omega)
              · have hcomp' :
                    (unlockStep now svc sid
                      (order.getD (idx + 1) "")).isCompleteB (rest.getD k "") = true := by
                  have hu := unlockStep_frame now svc sid (order.getD (idx + 1) "")
                  rw [isCompleteB_congr hu.2.1 hu.2.2.1]
                  exact hcomp
                exact harith ▸ ih (idx + 1) _ _ svcF newlyF h k
                  (by simpa using hk) hcomp' (by omega)

theorem milestoneLoop_frame (now setId : String) (percent : ℚ) :
    ∀ (ts achieved : List Int) (svc : Service),
    (milestoneLoop now setId percent ts achieved svc).2.cfg = svc.cfg ∧
    (milestoneLoop now setId percent ts achieved svc).2.catalog = svc.catalog ∧
    (milestoneLoop now setId percent ts achieved svc).2.ownedIdx = svc.ownedIdx ∧
    (milestoneLoop now setId percent ts achieved svc).2.state.cards =
      svc.state.cards ∧
    (milestoneLoop now setId percent ts achieved svc).2.state.unlocked_sets =
      svc.state.unlocked_sets ∧
    (milestoneLoop now setId percent ts achieved svc).2.state.set_milestones =
      svc.state.set_milestones ∧
    (milestoneLoop now setId percent ts achieved svc).2.state.pack_history =
      svc.state.pack_history
  | [], achieved, svc => by simp [milestoneLoop]
  | t :: rest, achieved, svc => by
      unfold milestoneLoop
      split
      · have hl :=
          logEventS_frame now svc "SET_MILESTONE_REACHED" (some setId)
            (.milestone t percent)
        have ih :=
          milestoneLoop_frame now setId percent rest (achieved ++ [t])
            (logEventS now svc "SET_MILESTONE_REACHED" (some setId)
              (.milestone t percent))
        exact ⟨ih.1.trans hl.1, ih.2.1.trans hl.2.1, ih.2.2.1.trans hl.2.2.1,
          ih.2.2.2.1.trans hl.2.2.2.1, ih.2.2.2.2.1.trans hl.2.2.2.2.1,
          ih.2.2.2.2.2.1.trans hl.2.2.2.2.2.1,
          ih.2.2.2.2.2.2.trans hl.2.2.2.2.2.2⟩
      · exact milestoneLoop_frame now setId percent rest achieved svc

theorem milestoneLoop_logSeq {P : EventRec → Prop} (now setId : String)
    (percent : ℚ)
    (hP : ∀ t, P (mkEvent now "SET_MILESTONE_REACHED" (some setId)
      (.milestone t percent))) :
    ∀ (ts achieved : List Int) (svc : Service),
    LogSeq P svc.state.events
      (milestoneLoop now setId percent ts achieved svc).2.state.events
  | [], achieved, svc => by
      simpa [milestoneLoop] using LogSeq.refl (P := P) svc.state.events
  | t :: rest, achieved, svc => by
      unfold milestoneLoop
      split
      · have hstep :=
          logEvent_logSeq (P := P) now svc.state "SET_MILESTONE_REACHED"
            (some setId) (.milestone t percent) (hP t)
        exact hstep.trans
          (milestoneLoop_logSeq now setId percent hP rest (achieved ++ [t])
            (logEventS now svc "SET_MILESTONE_REACHED" (some setId)
              (.milestone t percent)))
      · exact milestoneLoop_logSeq now setId percent hP rest achieved svc

theorem updateMilestones_frame (now setId : String) (svc : Service) :
    (resSvc (updateMilestones now setId svc)).cfg = svc.cfg ∧
    (resSvc (updateMilestones now setId svc)).catalog = svc.catalog ∧
    (resSvc (updateMilestones now setId svc)).ownedIdx = svc.ownedIdx ∧
    (resSvc (updateMilestones now setId svc)).state.cards = svc.state.cards ∧
    (resSvc (updateMilestones now setId svc)).state.unlocked_sets =
      svc.state.unlocked_sets ∧
    (resSvc (updateMilestones now setId svc)).state.pack_history =
      svc.state.pack_history := by
  unfold updateMilestones
  rcases hp : svc.getCollectionProgress setId with e | progress
  · simp [resSvc]
  · simp only [resSvc]
    have hm :=
      milestoneLoop_frame now setId progress.completion_percentage
        svc.cfg.milestone_thresholds
        ((alookup svc.state.set_milestones setId).getD []) svc
    exact ⟨hm.1, hm.2.1, hm.2.2.1, hm.2.2.2.1, hm.2.2.2.2.1, hm.2.2.2.2.2.2⟩

theorem updateMilestones_logSeq {P : EventRec → Prop} (now setId : String)
    (svc : Service)
    (hP : ∀ t p, P (mkEvent now "SET_MILESTONE_REACHED" (some setId)
      (.milestone t p))) :
    LogSeq P svc.state.events
      (resSvc (updateMilestones now setId svc)).state.events := by
  unfold updateMilestones
  rcases hp : svc.getCollectionProgress setId with e | progress
  · simpa [resSvc] using LogSeq.refl (P := P) svc.state.events
  · simp only [resSvc]
    exact
      milestoneLoop_logSeq now setId progress.completion_percentage
        (fun t => hP t progress.completion_percentage)
        svc.cfg.milestone_thresholds
        ((alookup svc.state.set_milestones setId).getD []) svc

theorem evaluate_frame (now : String) (changed : List String) (svc : Service) :
    (resSvc2 (evaluateProgression now changed svc)).cfg = svc.cfg ∧
    (resSvc2 (evaluateProgression now changed svc)).catalog = svc.catalog ∧
    (resSvc2 (evaluateProgression now changed svc)).ownedIdx = svc.ownedIdx ∧
    (resSvc2 (evaluateProgression now changed svc)).state.cards =
      svc.state.cards ∧
    (resSvc2 (evaluateProgression now changed svc)).state.set_milestones =
      svc.state.set_milestones ∧
    (resSvc2 (evaluateProgression now changed svc)).state.pack_history =
      svc.state.pack_history := by
  unfold evaluateProgression
  have hp := pass1_frame now changed svc.cfg.progression_order svc
  rcases h : pass1 now changed svc svc.cfg.progression_order with e | svc1 <;>
    rw [h] at hp <;> simp only [resSvc] at hp
  · exact ⟨hp.1, hp.2.1, hp.2.2.1, hp.2.2.2.1, hp.2.2.2.2.2.1, hp.2.2.2.2.2.2⟩
  · have hq :=
      pass2_frame now svc1.cfg.progression_order svc1.cfg.progression_order 0
        svc1 []
    exact ⟨hq.1.trans hp.1, hq.2.1.trans hp.2.1, hq.2.2.1.trans hp.2.2.1,
      hq.2.2.2.1.trans hp.2.2.2.1, hq.2.2.2.2.1.trans hp.2.2.2.2.2.1,
      hq.2.2.2.2.2.trans hp.2.2.2.2.2.2⟩

theorem evaluate_unlocked_ext (now : String) (changed : List String)
    (svc : Service) :
    ∃ t, (resSvc2 (evaluateProgression now changed svc)).state.unlocked_sets =
      svc.state.unlocked_sets ++ t := by
  unfold evaluateProgression
  have hp := pass1_frame now changed svc.cfg.progression_order svc
  rcases h : pass1 now changed svc svc.cfg.progression_order with e | svc1 <;>
    rw [h] at hp <;> simp only [resSvc] at hp
  · exact ⟨[], by simp [resSvc2, hp.2.2.2.2.1]⟩
  · obtain ⟨t, ht⟩ :=
      pass2_unlocked_ext now svc1.cfg.progression_order
        svc1.cfg.progression_order 0 svc1 []
    exact ⟨t, by rw [ht, hp.2.2.2.2.1]⟩

theorem evaluate_logSeq {P : EventRec → Prop} (now : String)
    (changed : List String) (svc : Service)
    (hP1 : ∀ sid ∈ changed, P (mkEvent now "SET_COMPLETED" (some sid) .emptyD))
    (hP2 : ∀ sid next,
      P (mkEvent now "NEW_SET_UNLOCKED" (some sid) (.nextSet next))) :
    LogSeq P svc.state.events
      (resSvc2 (evaluateProgression now changed svc)).state.events := by
  unfold evaluateProgression
  have hp := pass1_logSeq (P := P) now changed hP1 svc.cfg.progression_order svc
  rcases h : pass1 now changed svc svc.cfg.progression_order with e | svc1 <;>
    rw [h] at hp <;> simp only [resSvc] at hp
  · exact hp
  · exact hp.trans
      (pass2_logSeq (P := P) now svc1.cfg.progression_order hP2
        svc1.cfg.progression_order 0 svc1 [])

theorem evaluate_ok_newly {now : String} {changed : List String} {svc : Service}
    {svcF : Service} {newly : List String}
    (h : evaluateProgression now changed svc = .ok (svcF, newly)) :
    ∀ x ∈ newly, x ∉ svc.state.unlocked_sets ∧ x ∈ svcF.state.unlocked_sets := by
  unfold evaluateProgression at h
  have hp := pass1_frame now changed svc.cfg.progression_order svc
  rcases h1 : pass1 now changed svc svc.cfg.progression_order with e | svc1 <;>
    rw [h1] at h hp <;> simp only [resSvc] at hp
  · simp at h
  · intro x hx
    constructor
    · intro hmem
      have hmem1 : x ∈ svc1.state.unlocked_sets := by
        rw [hp.2.2.2.2.1]
        exact hmem
      have := pass2_newly_frozen now svc1.cfg.progression_order
        svc1.cfg.progression_order 0 svc1 [] svcF newly x hmem1 h
      rw [this] at hx
      exact absurd hx (List.not_mem_nil x)
    · rcases pass2_newly_sub now svc1.cfg.progression_order
        svc1.cfg.progression_order 0 svc1 [] svcF newly h x hx with hin | hin
      · exact absurd hin (List.not_mem_nil x)
      · exact hin

theorem evaluate_ok_complete_unlock {now : String} {changed : List String}
    {svc : Service} {svcF : Service} {newly : List String}
    (h : evaluateProgression now changed svc = .ok (svcF, newly)) :
    ∀ k, k + 1 < svc.cfg.progression_order.length →
      svc.isCompleteB (svc.cfg.progression_order.getD k "") = true →
      svc.cfg.progression_order.getD (k + 1) "" ∈ svcF.state.unlocked_sets := by
  unfold evaluateProgression at h
  have hp := pass1_frame now changed svc.cfg.progression_order svc
  rcases h1 : pass1 now changed svc svc.cfg.progression_order with e | svc1 <;>
    rw [h1] at h hp <;> simp only [resSvc] at hp
  · simp at h
  · intro k hk hcomp
    have horder : svc1.cfg.progression_order = svc.cfg.progression_order := by
      rw [hp.1]
    have hcomp1 :
        svc1.isCompleteB (svc1.cfg.progression_order.getD k "") = true := by
      rw [isCompleteB_congr hp.2.1 hp.2.2.1, horder]
      exact hcomp
    have :=
      pass2_complete_unlock now svc1.cfg.progression_order
        svc1.cfg.progression_order 0 svc1 [] svcF newly h k
        (by rw [horder]; omega) hcomp1 (by rw [horder]; omega)
    rw [horder] at this
    simpa using this

theorem milestoneStage_frame (now packSetId : String) (svc2 : Service) :
    (resSvc (milestoneStage now packSetId svc2)).cfg = svc2.cfg ∧
    (resSvc (milestoneStage now packSetId svc2)).catalog = svc2.catalog ∧
    (resSvc (milestoneStage now packSetId svc2)).ownedIdx = svc2.ownedIdx ∧
    (resSvc (milestoneStage now packSetId svc2)).state.cards =
      svc2.state.cards ∧
    (resSvc (milestoneStage now packSetId svc2)).state.unlocked_sets =
      svc2.state.unlocked_sets ∧
    (resSvc (milestoneStage now packSetId svc2)).state.pack_history =
      svc2.state.pack_history := by
  unfold milestoneStage
  split
  · exact updateMilestones_frame now packSetId svc2
  · simp [resSvc]

theorem milestoneStage_logSeq {P : EventRec → Prop} (now packSetId : String)
    (svc2 : Service)
    (hP : ∀ t p, P (mkEvent now "SET_MILESTONE_REACHED" (some packSetId)
      (.milestone t p))) :
    LogSeq P svc2.state.events
      (resSvc (milestoneStage now packSetId svc2)).state.events := by
  unfold milestoneStage
  split
  · exact updateMilestones_logSeq now packSetId svc2 hP
  · simpa [resSvc] using LogSeq.refl (P := P) svc2.state.events

theorem histAppend_frame (now packSetId : String)
    (cardsAdded invalidIds : List String) (svc3 : Service) :
    (histAppend now packSetId cardsAdded invalidIds svc3).cfg = svc3.cfg ∧
    (histAppend now packSetId cardsAdded invalidIds svc3).catalog =
      svc3.catalog ∧
    (histAppend now packSetId cardsAdded invalidIds svc3).ownedIdx =
      svc3.ownedIdx ∧
    (histAppend now packSetId cardsAdded invalidIds svc3).state.cards =
      svc3.state.cards ∧
    (histAppend now packSetId cardsAdded invalidIds svc3).state.unlocked_sets =
      svc3.state.unlocked_sets ∧
    (histAppend now packSetId cardsAdded invalidIds svc3).state.set_milestones =
      svc3.state.set_milestones ∧
    (histAppend now packSetId cardsAdded invalidIds svc3).state.events =
      svc3.state.events := by
  unfold histAppend
  split <;> simp

theorem addCardsFinish_logSeq {P : EventRec → Prop} (now packSetId : String)
    (ls : SlotLoopSt) (slotsLen : Nat)
    (hP1 : P (mkEvent now "SET_COMPLETED" (some packSetId) .emptyD))
    (hP2 : ∀ sid next,
      P (mkEvent now "NEW_SET_UNLOCKED" (some sid) (.nextSet next)))
    (hP3 : ∀ t p, P (mkEvent now "SET_MILESTONE_REACHED" (some packSetId)
      (.milestone t p))) :
    LogSeq P ls.svc.state.events
      (addCardsFinish now packSetId ls slotsLen).svc.state.events := by
  unfold addCardsFinish
  have hev :=
    evaluate_logSeq (P := P) now [packSetId] ls.svc
      (by intro sid hsid; rcases List.mem_singleton.mp hsid with rfl; exact hP1)
      hP2
  rcases h2 : evaluateProgression now [packSetId] ls.svc with
    ⟨e, svcE⟩ | ⟨svc2, newly⟩ <;> rw [h2] at hev <;> simp only [resSvc2] at hev <;>
    dsimp only
  · exact hev
  · have hms := milestoneStage_logSeq (P := P) now packSetId svc2 hP3
    rcases h3 : milestoneStage now packSetId svc2 with ⟨e, svcE⟩ | svc3 <;>
      rw [h3] at hms <;> simp only [resSvc] at hms <;> dsimp only
    · exact hev.trans hms
    · have hha :=
        histAppend_frame now packSetId ls.updated_card_ids ls.invalid_card_ids
          svc3
      rw [hha.2.2.2.2.2.2]
      exact hev.trans hms

theorem addCardsFinish_frame (now packSetId : String) (ls : SlotLoopSt)
    (slotsLen : Nat) :
    (addCardsFinish now packSetId ls slotsLen).svc.cfg = ls.svc.cfg ∧
    (addCardsFinish now packSetId ls slotsLen).svc.catalog = ls.svc.catalog := by
  unfold addCardsFinish
  have hev := evaluate_frame now [packSetId] ls.svc
  rcases h2 : evaluateProgression now [packSetId] ls.svc with
    ⟨e, svcE⟩ | ⟨svc2, newly⟩ <;> rw [h2] at hev <;> simp only [resSvc2] at hev <;>
    dsimp only
  · exact ⟨hev.1, hev.2.1⟩
  · have hms := milestoneStage_frame now packSetId svc2
    rcases h3 : milestoneStage now packSetId svc2 with ⟨e, svcE⟩ | svc3 <;>
      rw [h3] at hms <;> simp only [resSvc] at hms <;> dsimp only
    · exact ⟨hms.1.trans hev.1, hms.2.1.trans hev.2.1⟩
    · have hha :=
        histAppend_frame now packSetId ls.updated_card_ids ls.invalid_card_ids
          svc3
      exact ⟨(hha.1.trans hms.1).trans hev.1,
        (hha.2.1.trans hms.2.1).trans hev.2.1⟩

theorem addCardsFinish_unlocked_ext (now packSetId : String) (ls : SlotLoopSt)
    (slotsLen : Nat) :
    ∃ t, (addCardsFinish now packSetId ls slotsLen).svc.state.unlocked_sets =
      ls.svc.state.unlocked_sets ++ t := by
  unfold addCardsFinish
  obtain ⟨t, ht⟩ := evaluate_unlocked_ext now [packSetId] ls.svc
  rcases h2 : evaluateProgression now [packSetId] ls.svc with
    ⟨e, svcE⟩ | ⟨svc2, newly⟩ <;> rw [h2] at ht <;> simp only [resSvc2] at ht <;>
    dsimp only
  · exact ⟨t, ht⟩
  · have hms := milestoneStage_frame now packSetId svc2
    rcases h3 : milestoneStage now packSetId svc2 with ⟨e, svcE⟩ | svc3 <;>
      rw [h3] at hms <;> simp only [resSvc] at hms <;> dsimp only
    · exact ⟨t, hms.2.2.2.2.1.trans ht⟩
    · have hha :=
        histAppend_frame now packSetId ls.updated_card_ids ls.invalid_card_ids
          svc3
      exact ⟨t, (hha.2.2.2.2.1.trans hms.2.2.2.2.1).trans ht⟩

theorem addCardsFinish_ok_newly {now packSetId : String} {ls : SlotLoopSt}
    {slotsLen : Nat} {out : AddOutput}
    (h : (addCardsFinish now packSetId ls slotsLen).res = .ok out) :
    ∀ x ∈ out.newly_unlocked_sets,
      x ∉ ls.svc.state.unlocked_sets ∧
      x ∈ (addCardsFinish now packSetId ls slotsLen).svc.state.unlocked_sets := by
  unfold addCardsFinish at h ⊢
  rcases h2 : evaluateProgression now [packSetId] ls.svc with
    ⟨e, svcE⟩ | ⟨svc2, newly⟩ <;> rw [h2] at h <;> dsimp only at h ⊢
  · exact absurd h (by simp)
  · have hms := milestoneStage_frame now packSetId svc2
    rcases h3 : milestoneStage now packSetId svc2 with ⟨e, svcE⟩ | svc3 <;>
      rw [h3] at h hms <;> simp only [resSvc] at hms <;> dsimp only at h ⊢
    · exact absurd h (by simp)
    · have hout : out.newly_unlocked_sets = newly := by
        have := (Except.ok.injEq _ _).mp h
        rw [← this]
      intro x hx
      rw [hout] at hx
      have hn := evaluate_ok_newly h2 x hx
      refine ⟨hn.1, ?_⟩
      have hha :=
        histAppend_frame now packSetId ls.updated_card_ids ls.invalid_card_ids
          svc3
      rw [hha.2.2.2.2.1, hms.2.2.2.2.1]
      exact hn.2

theorem addCardsFinish_ok_complete_unlock {now packSetId : String}
    {ls : SlotLoopSt} {slotsLen : Nat} {out : AddOutput}
    (h : (addCardsFinish now packSetId ls slotsLen).res = .ok out) :
    ∀ k, k + 1 < ls.svc.cfg.progression_order.length →
      (addCardsFinish now packSetId ls slotsLen).svc.isCompleteB
        (ls.svc.cfg.progression_order.getD k "") = true →
      ls.svc.cfg.progression_order.getD (k + 1) "" ∈
        (addCardsFinish now packSetId ls slotsLen).svc.state.unlocked_sets := by
  unfold addCardsFinish at h ⊢
  rcases h2 : evaluateProgression now [packSetId] ls.svc with
    ⟨e, svcE⟩ | ⟨svc2, newly⟩ <;> rw [h2] at h <;> dsimp only at h ⊢
  · exact absurd h (by simp)
  · have hms := milestoneStage_frame now packSetId svc2
    rcases h3 : milestoneStage now packSetId svc2 with ⟨e, svcE⟩ | svc3 <;>
      rw [h3] at h hms <;> simp only [resSvc] at hms <;> dsimp only at h ⊢
    · exact absurd h (by simp)
    · intro k hk hcomp
      have hha :=
        histAppend_frame now packSetId ls.updated_card_ids ls.invalid_card_ids
          svc3
      have hev := evaluate_frame now [packSetId] ls.svc
      rw [h2] at hev
      simp only [resSvc2] at hev
      have hcomp2 :
          ls.svc.isCompleteB (ls.svc.cfg.progression_order.getD k "") = true := by
        rw [← isCompleteB_congr
            (a := histAppend now packSetId ls.updated_card_ids
              ls.invalid_card_ids svc3)
            ((hha.2.1.trans hms.2.1).trans hev.2.1)
            ((hha.2.2.1.trans hms.2.2.1).trans hev.2.2.1)]
        exact hcomp
      have := evaluate_ok_complete_unlock h2 k hk hcomp2
      rw [hha.2.2.2.2.1, hms.2.2.2.2.1]
      exact this

theorem pass1_ok (now : String) (changed : List String) :
    ∀ (l : List String) (svc : Service),
    (∀ sid ∈ changed, svc.catalog.isKnownSet sid = true) →
    ∃ svc1, pass1 now changed svc l = .ok svc1
  | [], svc, _ => ⟨svc, rfl⟩
  | sid :: rest, svc, hkn => by
      unfold pass1
      split
      · rename_i hmem
        have hE : svc.isSetCompleteE sid = .ok (svc.isCompleteB sid) := by
          rw [isSetCompleteE_eq, hkn sid hmem]
          simp
        rw [hE]
        dsimp only
        split
        · have hl := logEventS_frame now svc "SET_COMPLETED" (some sid) .emptyD
          exact pass1_ok now changed rest _ (by rw [hl.2.1]; exact hkn)
        · exact pass1_ok now changed rest svc hkn
      · exact pass1_ok now changed rest svc hkn

theorem pass2_ok (now : String) (order : List String) :
    ∀ (rest : List String) (idx : Nat) (svc : Service) (newly : List String),
    (∀ sid ∈ rest, svc.catalog.isKnownSet sid = true) →
    ∃ r, pass2 now order rest idx svc newly = .ok r
  | [], idx, svc, newly, _ => ⟨(svc, newly), rfl⟩
  | sid :: rest, idx, svc, newly, hkn => by
      unfold pass2
      have hE : svc.isSetCompleteE sid = .ok (svc.isCompleteB sid) := by
        rw [isSetCompleteE_eq, hkn sid (List.mem_cons_self sid rest)]
        simp
      rw [hE]
      dsimp only
      split
      · exact pass2_ok now order rest (idx + 1) svc newly
          (fun s hs => hkn s (List.mem_cons_of_mem sid hs))
      · split
        · exact pass2_ok now order rest (idx + 1) svc newly
            (fun s hs => hkn s (List.mem_cons_of_mem sid hs))
        · split
          · exact pass2_ok now order rest (idx + 1) svc newly
              (fun s hs => hkn s (List.mem_cons_of_mem sid hs))
          · have hu := unlockStep_frame now svc sid (order.getD (idx + 1) "")
            exact pass2_ok now order rest (idx + 1) _ _
              (by rw [hu.2.1]; exact fun s hs => hkn s (List.mem_cons_of_mem sid hs))

theorem milestoneStage_ok (now packSetId : String) (svc2 : Service)
    (hkn : svc2.catalog.isKnownSet packSetId = true) :
    ∃ svc3, milestoneStage now packSetId svc2 = .ok svc3 := by
  unfold milestoneStage
  split
  · unfold updateMilestones Service.getCollectionProgress
    rw [hkn]
    simp
  · exact ⟨svc2, rfl⟩

theorem evaluate_ok_exists (now : String) (changed : List String) (svc : Service)
    (hkc : ∀ sid ∈ changed, svc.catalog.isKnownSet sid = true)
    (hko : ∀ sid ∈ svc.cfg.progression_order,
      svc.catalog.isKnownSet sid = true) :
    ∃ r, evaluateProgression now changed svc = .ok r := by
  unfold evaluateProgression
  obtain ⟨svc1, h1⟩ := pass1_ok now changed svc.cfg.progression_order svc hkc
  rw [h1]
  have hp := pass1_frame now changed svc.cfg.progression_order svc
  rw [h1] at hp
  simp only [resSvc] at hp
  exact pass2_ok now svc1.cfg.progression_order svc1.cfg.progression_order 0
    svc1 [] (by rw [hp.1, hp.2.1]; exact hko)

theorem addCardsFinish_ok_exists (now packSetId : String) (ls : SlotLoopSt)
    (slotsLen : Nat)
    (hkn : ls.svc.catalog.isKnownSet packSetId = true)
    (hko : ∀ sid ∈ ls.svc.cfg.progression_order,
      ls.svc.catalog.isKnownSet sid = true) :
    ∃ out, (addCardsFinish now packSetId ls slotsLen).res = .ok out := by
  unfold addCardsFinish
  obtain ⟨⟨svc2, newly⟩, h2⟩ :=
    evaluate_ok_exists now [packSetId] ls.svc
      (by intro sid hsid; rcases List.mem_singleton.mp hsid with rfl; exact hkn)
      hko
  rw [h2]
  dsimp only
  have hev := evaluate_frame now [packSetId] ls.svc
  rw [h2] at hev
  simp only [resSvc2] at hev
  obtain ⟨svc3, h3⟩ :=
    milestoneStage_ok now packSetId svc2 (by rw [hev.2.1]; exact hkn)
  rw [h3]
  dsimp only
  exact ⟨_, rfl⟩

theorem addCards_logSeq_triv (now : String) (svc : Service) (input : PackInput) :
    LogSeq (fun _ => True) svc.state.events
      (addCards now svc input).svc.state.events := by
  rcases input with _ | ⟨rawSetId, slotsField⟩
  · exact .refl _
  · rcases slotsField with v | slots <;> unfold addCards <;> dsimp only <;> split
    · exact .refl _
    · exact .refl _
    · exact .refl _
    · have hps := processSlots_frame now rawSetId.asStr slots (initLoopSt svc)
      have hfin :=
        addCardsFinish_logSeq (P := fun _ => True) now rawSetId.asStr
          (processSlots now rawSetId.asStr (initLoopSt svc) slots) slots.length
          trivial (fun _ _ => trivial) (fun _ _ => trivial)
      rw [hps.2.2.1] at hfin
      exact hfin

theorem addCards_frame (now : String) (svc : Service) (input : PackInput) :
    (addCards now svc input).svc.cfg = svc.cfg ∧
    (addCards now svc input).svc.catalog = svc.catalog := by
  rcases input with _ | ⟨rawSetId, slotsField⟩
  · exact ⟨rfl, rfl⟩
  · rcases slotsField with v | slots <;> unfold addCards <;> dsimp only <;> split
    · exact ⟨rfl, rfl⟩
    · exact ⟨rfl, rfl⟩
    · exact ⟨rfl, rfl⟩
    · have hps := processSlots_frame now rawSetId.asStr slots (initLoopSt svc)
      have hfin :=
        addCardsFinish_frame now rawSetId.asStr
          (processSlots now rawSetId.asStr (initLoopSt svc) slots) slots.length
      exact ⟨hfin.1.trans hps.1, hfin.2.trans hps.2.1⟩

theorem addCards_unlocked_ext (now : String) (svc : Service) (input : PackInput) :
    ∃ t, (addCards now svc input).svc.state.unlocked_sets =
      svc.state.unlocked_sets ++ t := by
  rcases input with _ | ⟨rawSetId, slotsField⟩
  · exact ⟨[], by simp [addCards]⟩
  · rcases slotsField with v | slots <;> unfold addCards <;> dsimp only <;> split
    · exact ⟨[], by simp⟩
    · exact ⟨[], by simp⟩
    · exact ⟨[], by simp⟩
    · have hps := processSlots_frame now rawSetId.asStr slots (initLoopSt svc)
      obtain ⟨t, ht⟩ :=
        addCardsFinish_unlocked_ext now rawSetId.asStr
          (processSlots now rawSetId.asStr (initLoopSt svc) slots) slots.length
      rw [hps.2.2.2.1] at ht
      exact ⟨t, ht⟩

theorem addCards_ok_newly {now : String} {svc : Service} {input : PackInput}
    {out : AddOutput} (h : (addCards now svc input).res = .ok out) :
    ∀ x ∈ out.newly_unlocked_sets,
      x ∉ svc.state.unlocked_sets ∧
      x ∈ (addCards now svc input).svc.state.unlocked_sets := by
  rcases input with _ | ⟨rawSetId, slotsField⟩
  · exact absurd h (by simp [addCards])
  · rcases slotsField with v | slots <;> unfold addCards at h ⊢ <;>
      dsimp only at h ⊢ <;> split at h <;> rename_i hval
    · exact absurd h (by simp)
    · exact absurd h (by simp)
    · exact absurd h (by simp)
    · rw [if_neg hval]
      have hps := processSlots_frame now rawSetId.asStr slots (initLoopSt svc)
      intro x hx
      have hfin := addCardsFinish_ok_newly h x hx
      rw [hps.2.2.2.1] at hfin
      exact hfin

theorem addCards_ok_complete_unlock {now : String} {svc : Service}
    {input : PackInput} {out : AddOutput}
    (h : (addCards now svc input).res = .ok out) :
    ∀ k, k + 1 < svc.cfg.progression_order.length →
      (addCards now svc input).svc.isCompleteB
        (svc.cfg.progression_order.getD k "") = true →
      svc.cfg.progression_order.getD (k + 1) "" ∈
        (addCards now svc input).svc.state.unlocked_sets := by
  rcases input with _ | ⟨rawSetId, slotsField⟩
  · exact absurd h (by simp [addCards])
  · rcases slotsField with v | slots <;> unfold addCards at h ⊢ <;>
      dsimp only at h ⊢ <;> split at h <;> rename_i hval
    · exact absurd h (by simp)
    · exact absurd h (by simp)
    · exact absurd h (by simp)
    · rw [if_neg hval]
      have hps := processSlots_frame now rawSetId.asStr slots (initLoopSt svc)
      intro k hk hcomp
      have horder :
          (processSlots now rawSetId.asStr (initLoopSt svc)
            slots).svc.cfg.progression_order =
            svc.cfg.progression_order := by
        rw [hps.1]
        rfl
      have hfin := addCardsFinish_ok_complete_unlock h k (by rw [horder]; exact hk)
        (by rw [horder]; exact hcomp)
      rw [horder] at hfin
      exact hfin

/-- With every set of the progression order known to the catalog, a call
that raises does so in the three input checks, before any mutation. -/
theorem addCards_err_svc {now : String} {svc : Service} {input : PackInput}
    (hko : ∀ s ∈ svc.cfg.progression_order, svc.catalog.isKnownSet s = true) :
    ∀ e, (addCards now svc input).res = .error e →
      (addCards now svc input).svc = svc := by
  rcases input with _ | ⟨rawSetId, slotsField⟩
  · intro e h
    rfl
  · rcases slotsField with v | slots <;> unfold addCards <;> dsimp only <;>
      split <;> intro e h
    · rfl
    · rfl
    · rfl
    · rename_i hval
      have hknown : svc.catalog.isKnownSet rawSetId.asStr = true := by
        rcases hb : svc.catalog.isKnownSet rawSetId.asStr with _ | _
        · exact absurd (by rw [hb]; simp) hval
        · rfl
      have hps := processSlots_frame now rawSetId.asStr slots (initLoopSt svc)
      obtain ⟨out, hout⟩ :=
        addCardsFinish_ok_exists now rawSetId.asStr
          (processSlots now rawSetId.asStr (initLoopSt svc) slots) slots.length
          (by rw [hps.2.1]; exact hknown)
          (by rw [hps.1, hps.2.1]; exact hko)
      rw [show (addCardsCore now svc rawSetId.asStr slots).res =
            (addCardsFinish now rawSetId.asStr
              (processSlots now rawSetId.asStr (initLoopSt svc) slots)
              slots.length).res from rfl] at h
      rw [hout] at h
      exact absurd h (by simp)

/-- With every set of the progression order known and a well-formed input
naming a known set, a call returns normally. -/
theorem addCards_ok_exists {now : String} {svc : Service} {rawSetId : PyScalar}
    {slots : List SlotVal}
    (hstr : rawSetId.isStr = true)
    (hknown : svc.catalog.isKnownSet rawSetId.asStr = true)
    (hko : ∀ s ∈ svc.cfg.progression_order, svc.catalog.isKnownSet s = true) :
    ∃ out, (addCards now svc (.dict rawSetId (.isList slots))).res = .ok out := by
  unfold addCards
  dsimp only
  rw [if_neg (by rw [hstr, hknown]; simp)]
  have hps := processSlots_frame now rawSetId.asStr slots (initLoopSt svc)
  exact addCardsFinish_ok_exists now rawSetId.asStr
    (processSlots now rawSetId.asStr (initLoopSt svc) slots) slots.length
    (by rw [hps.2.1]; exact hknown)
    (by rw [hps.1, hps.2.1]; exact hko)

/-! ## Call-sequence lemmas -/

theorem runCallsOut_cons (svc : Service) (now : String) (input : PackInput)
    (rest : List (String × PackInput)) :
    runCallsOut svc ((now, input) :: rest) =
      ((runCallsOut (addCards now svc input).svc rest).1,
        match (addCards now svc input).res with
        | .ok out => out :: (runCallsOut (addCards now svc input).svc rest).2
        | .error _ => (runCallsOut (addCards now svc input).svc rest).2) := by
  show (match addCards now svc input with
    | c =>
        match runCallsOut c.svc rest with
        | (svcF, outs) =>
            match c.res with
            | .ok out => (svcF, out :: outs)
            | .error _ => (svcF, outs)) = _
  rcases hr : runCallsOut (addCards now svc input).svc rest with ⟨svcF, outs⟩
  rcases hres : (addCards now svc input).res with e | out <;> dsimp only <;>
    rw [hr] <;> rw [hres]

theorem runCalls_cons (svc : Service) (now : String) (input : PackInput)
    (rest : List (String × PackInput)) :
    runCalls svc ((now, input) :: rest) =
      runCalls (addCards now svc input).svc rest := by
  unfold runCalls
  rw [runCallsOut_cons]

theorem runCalls_logSeq_triv (calls : List (String × PackInput)) :
    ∀ svc : Service,
    LogSeq (fun _ => True) svc.state.events (runCalls svc calls).state.events := by
  induction calls with
  | nil => intro svc; exact .refl _
  | cons p rest ih =>
      intro svc
      rcases p with ⟨now, input⟩
      rw [runCalls_cons]
      exact (addCards_logSeq_triv now svc input).trans (ih _)

theorem runCalls_frame (calls : List (String × PackInput)) :
    ∀ svc : Service,
    (runCalls svc calls).cfg = svc.cfg ∧
    (runCalls svc calls).catalog = svc.catalog := by
  induction calls with
  | nil => intro svc; exact ⟨rfl, rfl⟩
  | cons p rest ih =>
      intro svc
      rcases p with ⟨now, input⟩
      rw [runCalls_cons]
      have ha := addCards_frame now svc input
      exact ⟨(ih _).1.trans ha.1, (ih _).2.trans ha.2⟩

theorem runCalls_unlocked_mono (calls : List (String × PackInput)) :
    ∀ (svc : Service) (x : String), x ∈ svc.state.unlocked_sets →
      x ∈ (runCalls svc calls).state.unlocked_sets := by
  induction calls with
  | nil => intro svc x hx; exact hx
  | cons p rest ih =>
      intro svc x hx
      rcases p with ⟨now, input⟩
      rw [runCalls_cons]
      obtain ⟨t, ht⟩ := addCards_unlocked_ext now svc input
      exact ih _ x (by rw [ht]; exact List.mem_append_left _ hx)

/-- Once a set is unlocked, no later call reports it as newly unlocked. -/
theorem runCallsOut_no_emit (calls : List (String × PackInput)) :
    ∀ (svc : Service) (x : String), x ∈ svc.state.unlocked_sets →
      ((runCallsOut svc calls).2.countP
        (fun o => decide (x ∈ o.newly_unlocked_sets))) = 0 := by
  induction calls with
  | nil => intro svc x hx; rfl
  | cons p rest ih =>
      intro svc x hx
      rcases p with ⟨now, input⟩
      rw [runCallsOut_cons]
      obtain ⟨t, ht⟩ := addCards_unlocked_ext now svc input
      have hx' : x ∈ (addCards now svc input).svc.state.unlocked_sets := by
        rw [ht]
        exact List.mem_append_left _ hx
      rcases hres : (addCards now svc input).res with e | out <;> dsimp only
      · exact ih _ x hx'
      · rw [List.countP_cons]
        have hd : decide (x ∈ out.newly_unlocked_sets) = false := by
          have hnot : x ∉ out.newly_unlocked_sets := fun hmem =>
            (addCards_ok_newly hres x hmem).1 hx
          simp [hnot]
        rw [hd, ih _ x hx']
        simp

/-- Any set id is reported in `newly_unlocked_sets` by at most one call of a
sequence. -/
theorem runCallsOut_once (calls : List (String × PackInput)) :
    ∀ (svc : Service) (x : String),
    ((runCallsOut svc calls).2.countP
      (fun o => decide (x ∈ o.newly_unlocked_sets))) ≤ 1 := by
  induction calls with
  | nil => intro svc x; simp [runCallsOut]
  | cons p rest ih =>
      intro svc x
      rcases p with ⟨now, input⟩
      rw [runCallsOut_cons]
      rcases hres : (addCards now svc input).res with e | out <;> dsimp only
      · exact ih _ x
      · rw [List.countP_cons]
        by_cases hmem : x ∈ out.newly_unlocked_sets
        · have h0 :=
            runCallsOut_no_emit rest _ x ((addCards_ok_newly hres x hmem).2)
          rw [h0]
          simp [hmem]
        · have hd : decide (x ∈ out.newly_unlocked_sets) = false := by
            simp [hmem]
          rw [hd]
          have := ih ((addCards now svc input).svc) x
          simpa using this

/-- Invariant: every complete set of the progression order has its
successor unlocked. -/
def CompInv (svc : Service) : Prop :=
  ∀ k, k + 1 < svc.cfg.progression_order.length →
    svc.isCompleteB (svc.cfg.progression_order.getD k "") = true →
    svc.cfg.progression_order.getD (k + 1) "" ∈ svc.state.unlocked_sets

theorem addCards_compInv {now : String} {svc : Service} {input : PackInput}
    (hko : ∀ s ∈ svc.cfg.progression_order, svc.catalog.isKnownSet s = true)
    (hinv : CompInv svc) : CompInv (addCards now svc input).svc := by
  rcases hres : (addCards now svc input).res with e | out
  · rw [addCards_err_svc hko e hres]
    exact hinv
  · intro k hk hcomp
    have hfr := addCards_frame now svc input
    rw [hfr.1] at hk hcomp ⊢
    exact addCards_ok_complete_unlock hres k hk hcomp

theorem runCalls_compInv (calls : List (String × PackInput)) :
    ∀ svc : Service,
    (∀ s ∈ svc.cfg.progression_order, svc.catalog.isKnownSet s = true) →
    CompInv svc → CompInv (runCalls svc calls) := by
  induction calls with
  | nil => intro svc _ hinv; exact hinv
  | cons p rest ih =>
      intro svc hko hinv
      rcases p with ⟨now, input⟩
      rw [runCalls_cons]
      refine ih _ ?_ (addCards_compInv hko hinv)
      intro s hs
      have hfr := addCards_frame now svc input
      rw [hfr.1] at hs
      rw [hfr.2]
      exact hko s hs

theorem ensureInitialUnlock_frame (now : String) (svc : Service) :
    (ensureInitialUnlock now svc).cfg = svc.cfg ∧
    (ensureInitialUnlock now svc).catalog = svc.catalog ∧
    (ensureInitialUnlock now svc).ownedIdx = svc.ownedIdx ∧
    (ensureInitialUnlock now svc).state.cards = svc.state.cards := by
  unfold ensureInitialUnlock
  rcases svc.cfg.progression_order with _ | ⟨first, rest⟩
  · exact ⟨rfl, rfl, rfl, rfl⟩
  · dsimp only
    split
    · exact ⟨rfl, rfl, rfl, rfl⟩
    · have hl :=
        logEvent_frame now
          { svc.state with
            unlocked_sets := svc.state.unlocked_sets ++ [first] }
          "INITIAL_SET_UNLOCKED" (some first) .reasonFirstSet
      exact ⟨rfl, rfl, rfl, hl.1⟩

theorem ensureInitialUnlock_logSeq (now : String) (svc : Service) :
    LogSeq (fun _ => True) svc.state.events
      (ensureInitialUnlock now svc).state.events := by
  unfold ensureInitialUnlock
  rcases svc.cfg.progression_order with _ | ⟨first, rest⟩
  · exact .refl _
  · dsimp only
    split
    · exact .refl _
    · exact logEvent_logSeq now
        { svc.state with unlocked_sets := svc.state.unlocked_sets ++ [first] }
        "INITIAL_SET_UNLOCKED" (some first) .reasonFirstSet trivial

theorem initService_logSeq (cfg : ProgCfg) (cat : Catalog) (raw : RawVal)
    (t0 : String) :
    LogSeq (fun _ => True) (validateOrInit cfg cat raw).events
      (initService cfg cat raw t0).state.events :=
  ensureInitialUnlock_logSeq t0
    { cfg := cfg, catalog := cat, state := validateOrInit cfg cat raw,
      ownedIdx := rebuildIndexes (validateOrInit cfg cat raw).cards }

theorem initService_cfg (cfg : ProgCfg) (cat : Catalog) (raw : RawVal)
    (t0 : String) :
    (initService cfg cat raw t0).cfg = cfg ∧
    (initService cfg cat raw t0).catalog = cat :=
  let svc : Service :=
    { cfg := cfg, catalog := cat, state := validateOrInit cfg cat raw,
      ownedIdx := rebuildIndexes (validateOrInit cfg cat raw).cards }
  ⟨(ensureInitialUnlock_frame t0 svc).1, (ensureInitialUnlock_frame t0 svc).2.1⟩

theorem isCompleteB_of_emptyIdx {svc : Service} (h : svc.ownedIdx = [])
    (s : String) : svc.isCompleteB s = false := by
  unfold Service.isCompleteB Service.ownedUnique
  rw [h]
  simp only [alookup, List.find?_nil]
  rcases htot : svc.catalog.totalCards s with _ | n <;> simp

theorem initService_emptyDict_ownedIdx (cfg : ProgCfg) (cat : Catalog)
    (t0 : String) :
    (initService cfg cat .emptyDict t0).ownedIdx = [] := by
  unfold initService
  have hf :=
    ensureInitialUnlock_frame t0
      { cfg := cfg, catalog := cat, state := validateOrInit cfg cat .emptyDict,
        ownedIdx := rebuildIndexes (validateOrInit cfg cat .emptyDict).cards }
  rw [hf.2.2.1]
  rfl

theorem initService_emptyDict_events_len (cfg : ProgCfg) (cat : Catalog)
    (t0 : String) :
    (initService cfg cat .emptyDict t0).state.events.length ≤ 1 := by
  unfold initService ensureInitialUnlock
  simp only [validateOrInit, emptyBState, logEvent, mkEvent]
  rcases hord : cfg.progression_order with _ | ⟨first, rest⟩ <;> simp

/-! ## Concrete instances used by counterexamples and witnesses -/

/-- A tiny catalog: set `s1` owns card `a`, set `s2` owns cards `b`, `c`. -/
def cexCatalog : Catalog := ⟨[("s1", ["a"]), ("s2", ["b", "c"])]⟩

/-- A progression configuration over the tiny catalog. -/
def cexCfg : ProgCfg :=
  { progression_order := ["s1", "s2"], track_partial_milestones := false,
    milestone_thresholds := [25, 50, 75, 100], maintain_pack_history := false }

/-- A persisted state whose `events` list holds two entries with the same
dedup key `"K"`; both pass the load-time filter (dicts with string `type`
and `timestamp`). -/
def c1raw : RawState :=
  { version := .pint 1, cards := .dict [], unlocked_sets := .list [],
    set_milestones := .dict [],
    events := .list
      [.dict (.pstr "X") (.pstr "t") (some (.pstr "K")) .pnone,
       .dict (.pstr "X") (.pstr "t") (some (.pstr "K")) .pnone],
    pack_history := .list [] }

/-- A well-formed single-slot ingestion input for card `a` of set `s1`. -/
def callS1a : String × PackInput :=
  ("t1", .dict (.pstr "s1") (.isList [.dict (.pstr "a")]))

/-! ## Claim C1 -/

/-- C1, counterexample: a `BinderService` constructed from a persisted state
whose (shape-valid) `events` entries repeat a dedup key is a reachable state
whose event log contains two entries with the same dedup key —
`_validate_or_initialize_state` does not check key uniqueness. -/
theorem c1_counterexample :
    ¬ distinctKeys
      (initService cexCfg cexCatalog (.dict c1raw) "t0").state.events := by
  decide

/-- C1, amended: if the sanitized persisted events have pairwise-distinct
dedup keys (in particular, for any state that was only ever written by the
service itself, or an empty one), then after construction and any sequence
of `add_cards_to_binder` calls the events list still has pairwise-distinct
dedup keys: every event append goes through `_log_event`, which refuses an
existing key. -/
theorem c1_dedup_invariant (cfg : ProgCfg) (cat : Catalog) (raw : RawVal)
    (t0 : String) (calls : List (String × PackInput))
    (hd : distinctKeys (validateOrInit cfg cat raw).events) :
    distinctKeys (runCalls (initService cfg cat raw t0) calls).state.events :=
  LogSeq.distinct
    ((initService_logSeq cfg cat raw t0).trans
      (runCalls_logSeq_triv calls (initService cfg cat raw t0)))
    hd

/-- C1 witness: the amended theorem applied at the empty persisted state and
one concrete ingestion call. -/
theorem c1_dedup_invariant_witness :
    distinctKeys
      (runCalls (initService cexCfg cexCatalog .emptyDict "t0")
        [callS1a]).state.events :=
  c1_dedup_invariant cexCfg cexCatalog .emptyDict "t0" [callS1a] (by decide)

/-! ## Claim C5 -/

/-- C5: for a freshly initialized service (empty persisted state) whose
progression order names only known sets, and any call sequence: (1) the log
never holds more than one `NEW_SET_UNLOCKED` event for the transition
`order[i] → order[i+1]`; (2) `order[i+1]` appears in `newly_unlocked_sets`
of at most one call; (3) once `order[i]` is complete, `order[i+1]` is
unlocked; and (4) re-running ingestion when `order[i+1]` is already
unlocked never reports it as newly unlocked again. -/
theorem c5_unlock_exactly_once (cfg : ProgCfg) (cat : Catalog) (t0 : String)
    (calls : List (String × PackInput)) (i : Nat)
    (hi : i + 1 < cfg.progression_order.length)
    (hko : ∀ s ∈ cfg.progression_order, cat.isKnownSet s = true) :
    countKey
      (eventKey "NEW_SET_UNLOCKED" (some (cfg.progression_order.getD i ""))
        (.nextSet (cfg.progression_order.getD (i + 1) "")))
      (runCalls (initService cfg cat .emptyDict t0) calls).state.events ≤ 1 ∧
    ((runCallsOut (initService cfg cat .emptyDict t0) calls).2.countP
      (fun o => decide (cfg.progression_order.getD (i + 1) "" ∈
        o.newly_unlocked_sets))) ≤ 1 ∧
    ((runCalls (initService cfg cat .emptyDict t0) calls).isCompleteB
        (cfg.progression_order.getD i "") = true →
      cfg.progression_order.getD (i + 1) "" ∈
        (runCalls (initService cfg cat .emptyDict t0) calls).state.unlocked_sets) ∧
    (∀ (svc : Service) (now : String) (input : PackInput) (out : AddOutput),
      cfg.progression_order.getD (i + 1) "" ∈ svc.state.unlocked_sets →
      (addCards now svc input).res = .ok out →
      cfg.progression_order.getD (i + 1) "" ∉ out.newly_unlocked_sets) := by
  have hcfg := initService_cfg cfg cat .emptyDict t0
  refine ⟨?_, ?_, ?_, ?_⟩
  · have hseq :=
      runCalls_logSeq_triv calls (initService cfg cat .emptyDict t0)
    have hle := hseq.countKey_le
      (eventKey "NEW_SET_UNLOCKED" (some (cfg.progression_order.getD i ""))
        (.nextSet (cfg.progression_order.getD (i + 1) "")))
    have hinit :
        countKey
          (eventKey "NEW_SET_UNLOCKED" (some (cfg.progression_order.getD i ""))
            (.nextSet (cfg.progression_order.getD (i + 1) "")))
          (initService cfg cat .emptyDict t0).state.events ≤ 1 :=
      le_trans (List.countP_le_length _)
        (initService_emptyDict_events_len cfg cat t0)
    omega
  · exact runCallsOut_once calls (initService cfg cat .emptyDict t0)
      (cfg.progression_order.getD (i + 1) "")
  · intro hcomp
    have hinv0 : CompInv (initService cfg cat .emptyDict t0) := by
      intro k hk hc
      rw [isCompleteB_of_emptyIdx (initService_emptyDict_ownedIdx cfg cat t0)]
        at hc
      exact absurd hc (by simp)
    have hinv :=
      runCalls_compInv calls (initService cfg cat .emptyDict t0)
        (by rw [hcfg.1, hcfg.2]; exact hko) hinv0
    have hfr := runCalls_frame calls (initService cfg cat .emptyDict t0)
    have horder :
        (runCalls (initService cfg cat .emptyDict t0)
          calls).cfg.progression_order = cfg.progression_order := by
      rw [hfr.1, hcfg.1]
    exact horder ▸ hinv i (by rw [horder]; exact hi) (by rw [horder]; exact hcomp)
  · intro svc now input out hunl hok hmem
    exact (addCards_ok_newly hok _ hmem).1 hunl

/-- C5 witness: the theorem applied at the tiny catalog with the transition
`s1 → s2` and a concrete two-call sequence (the second call re-ingests the
already-complete set `s1`). -/
theorem c5_unlock_exactly_once_witness :
    countKey (eventKey "NEW_SET_UNLOCKED" (some "s1") (.nextSet "s2"))
      (runCalls (initService cexCfg cexCatalog .emptyDict "t0")
        [callS1a, callS1a]).state.events ≤ 1 ∧
    ((runCallsOut (initService cexCfg cexCatalog .emptyDict "t0")
      [callS1a, callS1a]).2.countP
      (fun o => decide ("s2" ∈ o.newly_unlocked_sets))) ≤ 1 ∧
    ((runCalls (initService cexCfg cexCatalog .emptyDict "t0")
        [callS1a, callS1a]).isCompleteB "s1" = true →
      "s2" ∈ (runCalls (initService cexCfg cexCatalog .emptyDict "t0")
        [callS1a, callS1a]).state.unlocked_sets) ∧
    (∀ (svc : Service) (now : String) (input : PackInput) (out : AddOutput),
      "s2" ∈ svc.state.unlocked_sets →
      (addCards now svc input).res = .ok out →
      "s2" ∉ out.newly_unlocked_sets) :=
  c5_unlock_exactly_once cexCfg cexCatalog "t0" [callS1a, callS1a] 0
    (by decide) (by decide)

/-! ## Claim C8 support -/

theorem isKnown_of_complete {svc : Service} {s : String}
    (h : svc.isCompleteB s = true) : svc.catalog.isKnownSet s = true := by
  unfold Service.isCompleteB at h
  unfold Catalog.isKnownSet
  rcases hl : alookup svc.catalog.pools s with _ | cards
  · exfalso
    unfold Catalog.totalCards Catalog.cardsInSet at h
    rw [hl] at h
    simp at h
  · rfl

/-- When the changed-set list is the singleton `[sid]`, the first pass of
`_evaluate_progression` logs a `SET_COMPLETED` event for `sid` whenever
`sid` occurs in the traversed order and is complete. -/
theorem pass1_logged_singleton (now : String) (sid : String) :
    ∀ (l : List String) (svc : Service),
    sid ∈ l → svc.isCompleteB sid = true →
    ∃ e ∈ (resSvc (pass1 now [sid] svc l)).state.events,
      e.key = eventKey "SET_COMPLETED" (some sid) .emptyD
  | [], svc, hmem, _ => absurd hmem (List.not_mem_nil sid)
  | s :: rest, svc, hmem, hcomp => by
      unfold pass1
      by_cases hs : s = sid
      · subst hs
        rw [if_pos (List.mem_singleton.mpr rfl)]
        have hE : svc.isSetCompleteE s = .ok true := by
          rw [isSetCompleteE_eq, isKnown_of_complete hcomp, hcomp]
          simp
        rw [hE]
        dsimp only
        rw [if_pos rfl]
        have hex :=
          logEvent_exists now svc.state "SET_COMPLETED" (some s) .emptyD
        have hseq :=
          pass1_logSeq (P := fun _ => True) now [s] (fun _ _ => trivial) rest
            (logEventS now svc "SET_COMPLETED" (some s) .emptyD)
        exact hseq.exists_mono hex
      · rw [if_neg (fun hmem2 => hs (List.mem_singleton.mp hmem2))]
        have hmem' : sid ∈ rest := by
          rcases List.mem_cons.mp hmem with h | h
          · exact absurd h.symm hs
          · exact h
        exact pass1_logged_singleton now sid rest svc hmem' hcomp

/-- What the summary of a normal call reports, in terms of the slot-loop
result. -/
theorem addCardsFinish_ok_out {now packSetId : String} {ls : SlotLoopSt}
    {slotsLen : Nat} {out : AddOutput}
    (h : (addCardsFinish now packSetId ls slotsLen).res = .ok out) :
    out.set_id = packSetId ∧ out.total_slots_processed = slotsLen ∧
    out.cards_written = ls.updated_card_ids.length ∧
    out.new_discoveries = ls.inserted_new ∧
    out.duplicate_increments = ls.incremented_duplicates ∧
    out.invalid_card_ids = ls.invalid_card_ids := by
  unfold addCardsFinish at h
  rcases h2 : evaluateProgression now [packSetId] ls.svc with
    ⟨e, svcE⟩ | ⟨svc2, newly⟩ <;> rw [h2] at h <;> dsimp only at h
  · exact absurd h (by simp)
  · rcases h3 : milestoneStage now packSetId svc2 with ⟨e, svcE⟩ | svc3 <;>
      rw [h3] at h <;> dsimp only at h
    · exact absurd h (by simp)
    · have hout := (Except.ok.injEq _ _).mp h
      rw [← hout]
      exact ⟨rfl, rfl, rfl, rfl, rfl, rfl⟩

/-- Through a successful call tail, the `SET_COMPLETED` dedup key for the
ingested set is present in the log whenever the ingested set is in the
progression order and complete. -/
theorem addCardsFinish_completed_logged {now packSetId : String}
    {ls : SlotLoopSt} {slotsLen : Nat} {out : AddOutput}
    (h : (addCardsFinish now packSetId ls slotsLen).res = .ok out)
    (hmem : packSetId ∈ ls.svc.cfg.progression_order)
    (hcomp : (addCardsFinish now packSetId ls slotsLen).svc.isCompleteB
      packSetId = true) :
    ∃ e ∈ (addCardsFinish now packSetId ls slotsLen).svc.state.events,
      e.key = eventKey "SET_COMPLETED" (some packSetId) .emptyD := by
  unfold addCardsFinish at h hcomp ⊢
  rcases h2 : evaluateProgression now [packSetId] ls.svc with
    ⟨e, svcE⟩ | ⟨svc2, newly⟩ <;> rw [h2] at h hcomp <;>
    dsimp only at h hcomp ⊢
  · exact absurd h (by simp)
  · have hms := milestoneStage_frame now packSetId svc2
    rcases h3 : milestoneStage now packSetId svc2 with ⟨e, svcE⟩ | svc3 <;>
      rw [h3] at h hcomp hms <;> simp only [resSvc] at hms <;>
      dsimp only at h hcomp ⊢
    · exact absurd h (by simp)
    · have hha :=
        histAppend_frame now packSetId ls.updated_card_ids ls.invalid_card_ids
          svc3
      have hev := evaluate_frame now [packSetId] ls.svc
      rw [h2] at hev
      simp only [resSvc2] at hev
      -- completeness transfers back to the state entering the first pass
      have hcomp0 : ls.svc.isCompleteB packSetId = true := by
        rw [← isCompleteB_congr
            (a := histAppend now packSetId ls.updated_card_ids
              ls.invalid_card_ids svc3)
            ((hha.2.1.trans hms.2.1).trans hev.2.1)
            ((hha.2.2.1.trans hms.2.2.1).trans hev.2.2.1)]
        exact hcomp
      -- the first pass logs the event ...
      unfold evaluateProgression at h2
      rcases h1 : pass1 now [packSetId] ls.svc ls.svc.cfg.progression_order with
        e1 | svc1 <;> rw [h1] at h2 <;> dsimp only at h2
      · exact absurd h2 (by simp)
      · have hex :=
          pass1_logged_singleton now packSetId ls.svc.cfg.progression_order
            ls.svc hmem hcomp0
        rw [h1] at hex
        simp only [resSvc] at hex
        -- ... and the remaining stages only extend the log
        have hs2 :=
          pass2_logSeq (P := fun _ => True) now svc1.cfg.progression_order
            (fun _ _ => trivial) svc1.cfg.progression_order 0 svc1 []
        rw [h2] at hs2
        simp only [resSvc2] at hs2
        have hs3 :=
          milestoneStage_logSeq (P := fun _ => True) now packSetId svc2
            (fun _ _ => trivial)
        rw [h3] at hs3
        simp only [resSvc] at hs3
        rw [hha.2.2.2.2.2.2]
        exact hs3.exists_mono (hs2.exists_mono hex)

/-- Count of `SET_COMPLETED` events naming a given set. -/
def countCompleted (t : String) (es : List EventRec) : Nat :=
  es.countP (fun e => e.etype == "SET_COMPLETED" && e.set_id == PyScalar.pstr t)

/-- A successful call tail never logs a `SET_COMPLETED` event for a set
other than the ingested one. -/
theorem addCardsFinish_completed_other {now packSetId : String}
    {ls : SlotLoopSt} {slotsLen : Nat} (t : String) (ht : t ≠ packSetId) :
    countCompleted t
      (addCardsFinish now packSetId ls slotsLen).svc.state.events =
    countCompleted t ls.svc.state.events := by
  have hseq :=
    addCardsFinish_logSeq
      (P := fun e => (e.etype == "SET_COMPLETED" &&
        e.set_id == PyScalar.pstr t) = false)
      now packSetId ls slotsLen
      (by
        simp only [mkEvent, scalarOfOptStr, Bool.and_eq_false_iff]
        right
        simp only [beq_eq_false_iff_ne, ne_eq, PyScalar.pstr.injEq]
        exact fun hh => ht hh.symm)
      (by intro sid next; simp [mkEvent])
      (by intro a b; simp [mkEvent])
  exact logSeq_countP_eq hseq _ (fun e he => he)

/-- A persisted state owning the single card of set `s1` (so `s1` is
complete on load). -/
def c8raw : RawState :=
  { version := .pint 1,
    cards := .dict
      [(.pstr "s1::a",
        .dict (.pstr "a") (.pstr "s1") (.pint 1) (.pstr "t") (.pstr "t")
          (.pbool true))],
    unlocked_sets := .list [], set_milestones := .dict [],
    events := .list [], pack_history := .list [] }

/-- The C8 counterexample call: ingest card `b` into set `s2` while `s1` is
already complete. -/
def c8call : CallResult :=
  addCards "t1" (initService cexCfg cexCatalog (.dict c8raw) "t0")
    (.dict (.pstr "s2") (.isList [.dict (.pstr "b")]))

/-! ## Claim C8 -/

/-- C8, counterexample: after ingesting into set `s2` while set `s1` (a
different position of the progression order) is complete, the log holds no
`SET_COMPLETED` event for `s1` — the completed-set pass is restricted to
`changed_set_ids = {pack_set_id}`, it does not cover every position. -/
theorem c8_counterexample :
    ¬ (∀ s ∈ cexCfg.progression_order,
        c8call.svc.isCompleteB s = true →
        ∃ e ∈ c8call.svc.state.events,
          e.etype = "SET_COMPLETED" ∧ e.set_id = PyScalar.pstr s) := by
  decide

/-- C8, amended: the completed-set pass covers only the set ingested by the
call.  After a normal call: if the ingested set is in the progression order
and complete, the log holds an event with its `SET_COMPLETED` dedup key;
and for every other set the number of `SET_COMPLETED` events naming it is
unchanged by the call. -/
theorem c8_completed_only_ingested (now : String) (svc : Service)
    (input : PackInput) (out : AddOutput)
    (h : (addCards now svc input).res = .ok out) :
    (out.set_id ∈ svc.cfg.progression_order →
      (addCards now svc input).svc.isCompleteB out.set_id = true →
      ∃ e ∈ (addCards now svc input).svc.state.events,
        e.key = eventKey "SET_COMPLETED" (some out.set_id) .emptyD) ∧
    (∀ t, t ≠ out.set_id →
      countCompleted t (addCards now svc input).svc.state.events =
      countCompleted t svc.state.events) := by
  rcases input with _ | ⟨rawSetId, slotsField⟩
  · exact absurd h (by simp [addCards])
  · rcases slotsField with v | slots <;> unfold addCards at h ⊢ <;>
      dsimp only at h ⊢ <;> split at h <;> rename_i hval
    · exact absurd h (by simp)
    · exact absurd h (by simp)
    · exact absurd h (by simp)
    · rw [if_neg hval]
      have hps := processSlots_frame now rawSetId.asStr slots (initLoopSt svc)
      have hsid : out.set_id = rawSetId.asStr := (addCardsFinish_ok_out h).1
      constructor
      · intro hmem hcomp
        rw [hsid] at hcomp ⊢
        refine addCardsFinish_completed_logged h ?_ hcomp
        rw [hps.1]
        rw [hsid] at hmem
        exact hmem
      · intro t ht
        rw [hsid] at ht
        show countCompleted t
          (addCardsFinish now rawSetId.asStr
            (processSlots now rawSetId.asStr (initLoopSt svc) slots)
            slots.length).svc.state.events = countCompleted t svc.state.events
        rw [addCardsFinish_completed_other t ht]
        unfold countCompleted
        rw [hps.2.2.1]
        rfl

/-- C8 witness: the amended theorem at a fresh service over the tiny
catalog ingesting the single card of `s1` (which completes `s1`). -/
theorem c8_completed_only_ingested_witness :
    ("s1" ∈ cexCfg.progression_order →
      (addCards "t1" (initService cexCfg cexCatalog .emptyDict "t0")
        (.dict (.pstr "s1") (.isList [.dict (.pstr "a")]))).svc.isCompleteB
        "s1" = true →
      ∃ e ∈ (addCards "t1" (initService cexCfg cexCatalog .emptyDict "t0")
          (.dict (.pstr "s1") (.isList [.dict (.pstr "a")]))).svc.state.events,
        e.key = eventKey "SET_COMPLETED" (some "s1") .emptyD) ∧
    (∀ t, t ≠ "s1" →
      countCompleted t
        (addCards "t1" (initService cexCfg cexCatalog .emptyDict "t0")
          (.dict (.pstr "s1") (.isList [.dict (.pstr "a")]))).svc.state.events =
      countCompleted t
        (initService cexCfg cexCatalog .emptyDict "t0").state.events) :=
  c8_completed_only_ingested "t1" (initService cexCfg cexCatalog .emptyDict "t0")
    (.dict (.pstr "s1") (.isList [.dict (.pstr "a")]))
    { set_id := "s1", total_slots_processed := 1, cards_written := 1,
      new_discoveries := 1, duplicate_increments := 0, invalid_card_ids := [],
      set_completed := true, newly_unlocked_sets := ["s2"] }
    (by rfl)

/-! ## Claim C10 -/

/-- C10: the three input checks of `add_cards_to_binder` reject atomically.
A non-dict `pack_result`, a missing/non-string/unknown `set_id`, or a
non-list `slots` value each raise before any mutation: the call leaves the
service (cards, unlocked sets, milestones, events, pack history) exactly as
it was, and `repository.save` is not invoked during the call. -/
theorem c10_early_reject_atomic (now : String) (svc : Service) :
    (addCards now svc .nonDict =
      { res := .error .notDict, svc := svc, saves := 0 }) ∧
    (∀ (rawSetId : PyScalar) (slotsField : SlotsField),
      rawSetId.isStr = false ∨ svc.catalog.isKnownSet rawSetId.asStr = false →
      addCards now svc (.dict rawSetId slotsField) =
        { res := .error .badSetId, svc := svc, saves := 0 }) ∧
    (∀ (rawSetId : PyScalar) (v : PyScalar),
      rawSetId.isStr = true → svc.catalog.isKnownSet rawSetId.asStr = true →
      addCards now svc (.dict rawSetId (.notList v)) =
        { res := .error .badSlots, svc := svc, saves := 0 }) := by
  refine ⟨rfl, ?_, ?_⟩
  · intro rawSetId slotsField hbad
    unfold addCards
    dsimp only
    rw [if_pos]
    rcases hbad with hbad | hbad <;> rw [hbad] <;> simp
  · intro rawSetId v hstr hknown
    unfold addCards
    dsimp only
    rw [if_neg (by rw [hstr, hknown]; simp)]

/-- C10 witness: the theorem applied at a concrete fresh service, checked
at a non-dict input, an unknown set id, and a non-list slots field. -/
theorem c10_early_reject_atomic_witness :
    (addCards "t1" (initService cexCfg cexCatalog .emptyDict "t0") .nonDict =
      { res := .error .notDict,
        svc := initService cexCfg cexCatalog .emptyDict "t0", saves := 0 }) ∧
    (addCards "t1" (initService cexCfg cexCatalog .emptyDict "t0")
        (.dict (.pstr "zz") (.isList [])) =
      { res := .error .badSetId,
        svc := initService cexCfg cexCatalog .emptyDict "t0", saves := 0 }) ∧
    (addCards "t1" (initService cexCfg cexCatalog .emptyDict "t0")
        (.dict (.pstr "s1") (.notList .pnone)) =
      { res := .error .badSlots,
        svc := initService cexCfg cexCatalog .emptyDict "t0", saves := 0 }) :=
  ⟨(c10_early_reject_atomic "t1"
      (initService cexCfg cexCatalog .emptyDict "t0")).1,
    (c10_early_reject_atomic "t1"
      (initService cexCfg cexCatalog .emptyDict "t0")).2.1 (.pstr "zz")
      (.isList []) (.inr (by decide)),
    (c10_early_reject_atomic "t1"
      (initService cexCfg cexCatalog .emptyDict "t0")).2.2 (.pstr "s1") .pnone
      (by decide) (by decide)⟩

/-! ## Claim C3 support: slot-loop characterization -/

theorem alookup_cons {α : Type} (k1 : String) (v1 : α) (rest : List (String × α))
    (k : String) :
    alookup ((k1, v1) :: rest) k = if k1 = k then some v1 else alookup rest k := by
  by_cases h : k1 = k
  · simp [alookup, List.find?, h]
  · have hb : (k1 == k) = false := by simp [h]
    simp [alookup, List.find?, hb, h]

theorem alookup_aset {α : Type} :
    ∀ (m : List (String × α)) (k : String) (v : α) (k' : String),
    alookup (aset m k v) k' = if k' = k then some v else alookup m k'
  | [], k, v, k' => by
      by_cases h : k' = k <;> simp [aset, alookup_cons, alookup, h] <;>
        simp [eq_comm] at h ⊢ <;> simp [h]
  | (k1, v1) :: rest, k, v, k' => by
      unfold aset
      by_cases h1 : k1 = k
      · rw [if_pos h1]
        by_cases h2 : k' = k
        · simp [alookup_cons, h2]
        · rw [alookup_cons, alookup_cons]
          have : ¬ k = k' := fun hh => h2 hh.symm
          rw [if_neg this, if_neg h2, if_neg (by rw [h1]; exact this)]
      · rw [if_neg h1]
        by_cases h2 : k' = k1
        · rw [alookup_cons, if_pos h2.symm, if_neg (by rw [h2]; exact h1),
            alookup_cons, if_pos h2.symm]
        · rw [alookup_cons, if_neg (fun hh => h2 hh.symm),
            alookup_aset rest k v k']
          by_cases h3 : k' = k
          · rw [if_pos h3, if_pos h3]
          · rw [if_neg h3, if_neg h3, alookup_cons,
              if_neg (fun hh => h2 hh.symm)]

/-- The diagnostic string an invalid slot contributes, if any. -/
def invalidRepr (cat : Catalog) (pid : String) (s : SlotVal) : Option String :=
  match slotVerdict cat pid s with
  | .invalid r => some r
  | _ => none

/-- The stripped card id of an accepted slot, if any. -/
def validId (cat : Catalog) (pid : String) (s : SlotVal) : Option String :=
  match slotVerdict cat pid s with
  | .valid c => some c
  | _ => none

theorem processSlots_out (now pid : String) (cat : Catalog) :
    ∀ (l : List SlotVal) (ls : SlotLoopSt), ls.svc.catalog = cat →
    (processSlots now pid ls l).invalid_card_ids =
      ls.invalid_card_ids ++ l.filterMap (invalidRepr cat pid) ∧
    (processSlots now pid ls l).updated_card_ids =
      ls.updated_card_ids ++ l.filterMap (validId cat pid)
  | [], ls, hcat => by simp [processSlots]
  | slot :: rest, ls, hcat => by
      have hstep := processSlot_frame now pid ls slot
      have ih :=
        processSlots_out now pid cat rest (processSlot now pid ls slot)
          (hstep.2.1.trans hcat)
      unfold processSlots
      rw [ih.1, ih.2]
      unfold processSlot
      rw [List.filterMap_cons, List.filterMap_cons]
      unfold invalidRepr validId
      rw [← hcat]
      rcases hv : slotVerdict ls.svc.catalog pid slot with _ | r | c <;> dsimp only
      · exact ⟨rfl, rfl⟩
      · simp
      · rcases alookup ls.svc.state.cards (composeCardKey pid c) with _ | ex <;>
          dsimp only <;> simp

theorem processSlots_cards (now pid : String) (cat : Catalog) :
    ∀ (l : List SlotVal) (ls : SlotLoopSt) (key : String),
    ls.svc.catalog = cat →
    (∀ s ∈ l, ∀ c, validId cat pid s = some c →
      composeCardKey pid c ≠ key) →
    alookup (processSlots now pid ls l).svc.state.cards key =
      alookup ls.svc.state.cards key
  | [], ls, key, hcat, hk => rfl
  | slot :: rest, ls, key, hcat, hk => by
      have hstep := processSlot_frame now pid ls slot
      have ih :=
        processSlots_cards now pid cat rest (processSlot now pid ls slot) key
          (hstep.2.1.trans hcat)
          (fun s hs => hk s (List.mem_cons_of_mem slot hs))
      unfold processSlots
      rw [ih]
      unfold processSlot
      rcases hv : slotVerdict ls.svc.catalog pid slot with _ | r | c
      · rfl
      · rfl
      · have hne : composeCardKey pid c ≠ key := by
          refine hk slot (List.mem_cons_self slot rest) c ?_
          unfold validId
          rw [hcat] at hv
          rw [hv]
        dsimp only
        rcases alookup ls.svc.state.cards (composeCardKey pid c) with
          _ | ex <;> dsimp only <;>
          rw [alookup_aset, if_neg (fun hh => hne hh.symm)]

/-- The call tail leaves the cards map exactly as the slot loop left it. -/
theorem addCardsFinish_cards (now packSetId : String) (ls : SlotLoopSt)
    (slotsLen : Nat) :
    (addCardsFinish now packSetId ls slotsLen).svc.state.cards =
      ls.svc.state.cards := by
  unfold addCardsFinish
  have hev := evaluate_frame now [packSetId] ls.svc
  rcases h2 : evaluateProgression now [packSetId] ls.svc with
    ⟨e, svcE⟩ | ⟨svc2, newly⟩ <;> rw [h2] at hev <;> simp only [resSvc2] at hev <;>
    dsimp only
  · exact hev.2.2.2.1
  · have hms := milestoneStage_frame now packSetId svc2
    rcases h3 : milestoneStage now packSetId svc2 with ⟨e, svcE⟩ | svc3 <;>
      rw [h3] at hms <;> simp only [resSvc] at hms <;> dsimp only
    · exact hms.2.2.2.1.trans hev.2.2.2.1
    · have hha :=
        histAppend_frame now packSetId ls.updated_card_ids ls.invalid_card_ids
          svc3
      exact (hha.2.2.2.1.trans hms.2.2.2.1).trans hev.2.2.2.1

/-! ## C3: partial-success slot validation -/

/-- A freshly initialized service over the two-set example catalog. -/
def c3svc : Service := initService cexCfg cexCatalog .emptyDict "t0"

/-- A slots list mixing a non-dict slot, a valid slot, an unknown card id and
a missing card id. -/
def c3slots : List SlotVal :=
  [.nonDict, .dict (.pstr "a"), .dict (.pstr "zz"), .dict .pnone]

/-- C3 counterexample: a slot that is not a dict — one whose card id is
missing because the slot has no fields at all — is skipped silently by
`add_cards_to_binder`: the call returns normally and counts the slot in
`total_slots_processed`, but `invalid_card_ids` stays empty, contradicting
the claim that every slot with a missing card id contributes one entry. -/
theorem c3_counterexample :
    (addCards "t1" (initService cexCfg cexCatalog .emptyDict "t0")
        (.dict (.pstr "s1") (.isList [.nonDict]))).res =
      .ok { set_id := "s1", total_slots_processed := 1, cards_written := 0,
            new_discoveries := 0, duplicate_increments := 0,
            invalid_card_ids := [], set_completed := false,
            newly_unlocked_sets := [] } := by
  rfl

/-- C3 (amended): for every `add_cards_to_binder` call whose `set_id` is a
string naming a known set and whose `slots` field is a list (and with every
progression-order set known, so progression evaluation cannot raise), the
call returns normally whatever the slots contain; the reported
`invalid_card_ids` are exactly the diagnostic strings of the dict slots that
fail the card-id validation chain, in slot order; `cards_written` counts
exactly the accepted slots; `total_slots_processed` counts all slots; and
every card record whose key is not written by an accepted slot is left
unchanged.  Slots that are not dicts are skipped with no diagnostic entry,
which is why the claim as stated fails. -/
theorem c3_partial_success (now : String) (svc : Service) (rawSetId : PyScalar)
    (slots : List SlotVal)
    (hstr : rawSetId.isStr = true)
    (hknown : svc.catalog.isKnownSet rawSetId.asStr = true)
    (hko : ∀ s ∈ svc.cfg.progression_order,
      svc.catalog.isKnownSet s = true) :
    ∃ out, (addCards now svc (.dict rawSetId (.isList slots))).res = .ok out ∧
      out.invalid_card_ids =
        slots.filterMap (invalidRepr svc.catalog rawSetId.asStr) ∧
      out.cards_written =
        (slots.filterMap (validId svc.catalog rawSetId.asStr)).length ∧
      out.total_slots_processed = slots.length ∧
      ∀ key : String,
        (∀ s ∈ slots, ∀ c, validId svc.catalog rawSetId.asStr s = some c →
          composeCardKey rawSetId.asStr c ≠ key) →
        alookup (addCards now svc
            (.dict rawSetId (.isList slots))).svc.state.cards key =
          alookup svc.state.cards key := by
  have hred : addCards now svc (.dict rawSetId (.isList slots)) =
      addCardsCore now svc rawSetId.asStr slots := by
    unfold addCards
    dsimp only
    rw [if_neg (by rw [hstr, hknown]; simp)]
  have hps := processSlots_frame now rawSetId.asStr slots (initLoopSt svc)
  obtain ⟨out, hout⟩ :=
    addCardsFinish_ok_exists now rawSetId.asStr
      (processSlots now rawSetId.asStr (initLoopSt svc) slots) slots.length
      (by rw [hps.2.1]; exact hknown)
      (by rw [hps.1, hps.2.1]; exact hko)
  have hfields := addCardsFinish_ok_out hout
  have hloop :=
    processSlots_out now rawSetId.asStr svc.catalog slots (initLoopSt svc) rfl
  refine ⟨out, ?_, ?_, ?_, ?_, ?_⟩
  · rw [hred]; exact hout
  · rw [hfields.2.2.2.2.2, hloop.1]; simp [initLoopSt]
  · rw [hfields.2.2.1, hloop.2]; simp [initLoopSt]
  · exact hfields.2.1
  · intro key hkey
    rw [hred]
    rw [show (addCardsCore now svc rawSetId.asStr slots).svc =
        (addCardsFinish now rawSetId.asStr
          (processSlots now rawSetId.asStr (initLoopSt svc) slots)
          slots.length).svc from rfl]
    rw [addCardsFinish_cards]
    exact processSlots_cards now rawSetId.asStr svc.catalog slots
      (initLoopSt svc) key rfl hkey

/-- C3 witness: the amended theorem applied at a freshly initialized service
ingesting a mix of one non-dict slot, one valid slot, one unknown card id and
one missing card id. -/
theorem c3_partial_success_witness :
    ((PyScalar.pstr "s1").isStr = true ∧
      c3svc.catalog.isKnownSet (PyScalar.pstr "s1").asStr = true ∧
      ∀ s ∈ c3svc.cfg.progression_order,
        c3svc.catalog.isKnownSet s = true) ∧
    (∃ out,
      (addCards "t1" c3svc (.dict (.pstr "s1") (.isList c3slots))).res =
        .ok out ∧
      out.invalid_card_ids =
        c3slots.filterMap
          (invalidRepr c3svc.catalog (PyScalar.pstr "s1").asStr) ∧
      out.cards_written =
        (c3slots.filterMap
          (validId c3svc.catalog (PyScalar.pstr "s1").asStr)).length ∧
      out.total_slots_processed = c3slots.length ∧
      ∀ key : String,
        (∀ s ∈ c3slots, ∀ c,
          validId c3svc.catalog (PyScalar.pstr "s1").asStr s = some c →
          composeCardKey (PyScalar.pstr "s1").asStr c ≠ key) →
        alookup (addCards "t1" c3svc
            (.dict (.pstr "s1") (.isList c3slots))).svc.state.cards key =
          alookup c3svc.state.cards key) :=
  ⟨⟨by decide, by decide, by decide⟩,
    c3_partial_success "t1" c3svc (.pstr "s1") c3slots (by decide) (by decide)
      (by decide)⟩


/-! ## C7: duplicate ingestion -/

/-- The slot loop over a single accepted slot, characterized by the lookup
of the composed card key. -/
theorem processSlots_single (now : String) (svc : Service) (pid : String)
    (raw : PyScalar) (c : String)
    (hverdict : slotVerdict svc.catalog pid (.dict raw) = .valid c) :
    processSlots now pid (initLoopSt svc) [.dict raw] =
      match alookup svc.state.cards (composeCardKey pid c) with
      | none =>
          { svc :=
              { svc with
                state :=
                  { svc.state with
                    cards :=
                      aset svc.state.cards (composeCardKey pid c)
                        { card_id := c, set_id := pid, quantity_owned := 1,
                          first_obtained_at := now, last_obtained_at := now,
                          ever_new_discovery := true } }
                ownedIdx :=
                  aset svc.ownedIdx pid
                    (addUnique ((alookup svc.ownedIdx pid).getD []) c) }
            inserted_new := 1
            incremented_duplicates := 0
            invalid_card_ids := []
            updated_card_ids := [c] }
      | some ex =>
          { svc :=
              { svc with
                state :=
                  { svc.state with
                    cards :=
                      aset svc.state.cards (composeCardKey pid c)
                        { ex with
                          quantity_owned := ex.quantity_owned + 1
                          last_obtained_at := now } } }
            inserted_new := 0
            incremented_duplicates := 1
            invalid_card_ids := []
            updated_card_ids := [c] } := by
  show processSlot now pid (initLoopSt svc) (.dict raw) = _
  unfold processSlot
  dsimp only [initLoopSt]
  rw [hverdict]
  dsimp only
  rcases alookup svc.state.cards (composeCardKey pid c) with _ | ex <;> rfl

/-- A single-accepted-slot call rewrites exactly one card record: a fresh
record at quantity 1, or the existing record with the quantity bumped and
`last_obtained_at` refreshed (`first_obtained_at` and the discovery flag are
copied over unchanged). -/
theorem addCardsState_single (now : String) (svc : Service)
    (rawSetId raw : PyScalar) (c : String)
    (hstr : rawSetId.isStr = true)
    (hknown : svc.catalog.isKnownSet rawSetId.asStr = true)
    (hverdict :
      slotVerdict svc.catalog rawSetId.asStr (.dict raw) = .valid c) :
    (addCardsState now svc (.dict rawSetId (.isList [.dict raw]))).state.cards =
      aset svc.state.cards (composeCardKey rawSetId.asStr c)
        (match alookup svc.state.cards (composeCardKey rawSetId.asStr c) with
         | none =>
             { card_id := c, set_id := rawSetId.asStr, quantity_owned := 1,
               first_obtained_at := now, last_obtained_at := now,
               ever_new_discovery := true }
         | some ex =>
             { ex with
               quantity_owned := ex.quantity_owned + 1
               last_obtained_at := now }) := by
  unfold addCardsState
  have hred : addCards now svc (.dict rawSetId (.isList [.dict raw])) =
      addCardsCore now svc rawSetId.asStr [.dict raw] := by
    unfold addCards
    dsimp only
    rw [if_neg (by rw [hstr, hknown]; simp)]
  rw [hred]
  rw [show (addCardsCore now svc rawSetId.asStr [.dict raw]).svc =
      (addCardsFinish now rawSetId.asStr
        (processSlots now rawSetId.asStr (initLoopSt svc) [.dict raw])
        [SlotVal.dict raw].length).svc from rfl]
  rw [addCardsFinish_cards,
    processSlots_single now svc rawSetId.asStr raw c hverdict]
  rcases alookup svc.state.cards (composeCardKey rawSetId.asStr c) with
    _ | ex <;> rfl

/-- C7: ingesting an already-recorded card again returns normally with one
duplicate increment and no new discovery, and leaves the record with
`quantity_owned` incremented by one and `last_obtained_at` set to the call
timestamp, `first_obtained_at` and the discovery flag untouched; and
ingesting the same new card id in two separate packs yields
`quantity_owned = 2` with `first_obtained_at` from the first pack,
`last_obtained_at` from the second, and the discovery flag still true. -/
theorem c7_duplicate_ingestion (svc : Service) (rawSetId raw : PyScalar)
    (c : String)
    (hstr : rawSetId.isStr = true)
    (hknown : svc.catalog.isKnownSet rawSetId.asStr = true)
    (hko : ∀ s ∈ svc.cfg.progression_order,
      svc.catalog.isKnownSet s = true)
    (hverdict :
      slotVerdict svc.catalog rawSetId.asStr (.dict raw) = .valid c) :
    (∀ (now : String) (ex : CardRecord),
      alookup svc.state.cards (composeCardKey rawSetId.asStr c) = some ex →
      ∃ out,
        (addCards now svc (.dict rawSetId (.isList [.dict raw]))).res =
          .ok out ∧
        out.duplicate_increments = 1 ∧ out.new_discoveries = 0 ∧
        out.cards_written = 1 ∧
        alookup (addCards now svc
            (.dict rawSetId (.isList [.dict raw]))).svc.state.cards
          (composeCardKey rawSetId.asStr c) =
          some { ex with
                 quantity_owned := ex.quantity_owned + 1
                 last_obtained_at := now }) ∧
    (alookup svc.state.cards (composeCardKey rawSetId.asStr c) = none →
      ∀ t1 t2 : String,
      alookup (addCardsState t2
          (addCardsState t1 svc (.dict rawSetId (.isList [.dict raw])))
          (.dict rawSetId (.isList [.dict raw]))).state.cards
        (composeCardKey rawSetId.asStr c) =
        some { card_id := c, set_id := rawSetId.asStr, quantity_owned := 2,
               first_obtained_at := t1, last_obtained_at := t2,
               ever_new_discovery := true }) := by
  constructor
  · intro now ex hex
    have hexists : ∃ out,
        (addCards now svc (.dict rawSetId (.isList [.dict raw]))).res =
          .ok out :=
      addCards_ok_exists hstr hknown hko
    obtain ⟨out, hout⟩ := hexists
    have hred : addCards now svc (.dict rawSetId (.isList [.dict raw])) =
        addCardsCore now svc rawSetId.asStr [.dict raw] := by
      unfold addCards
      dsimp only
      rw [if_neg (by rw [hstr, hknown]; simp)]
    have hls : processSlots now rawSetId.asStr (initLoopSt svc) [.dict raw] =
        { svc :=
            { svc with
              state :=
                { svc.state with
                  cards :=
                    aset svc.state.cards (composeCardKey rawSetId.asStr c)
                      { ex with
                        quantity_owned := ex.quantity_owned + 1
                        last_obtained_at := now } } }
          inserted_new := 0
          incremented_duplicates := 1
          invalid_card_ids := []
          updated_card_ids := [c] } := by
      rw [processSlots_single now svc rawSetId.asStr raw c hverdict, hex]
    have hout2 : (addCardsFinish now rawSetId.asStr
        (processSlots now rawSetId.asStr (initLoopSt svc) [.dict raw])
        [SlotVal.dict raw].length).res = .ok out := by
      rw [hred] at hout
      exact hout
    have hfields := addCardsFinish_ok_out hout2
    refine ⟨out, hout, ?_, ?_, ?_, ?_⟩
    · rw [hfields.2.2.2.2.1, hls]
    · rw [hfields.2.2.2.1, hls]
    · rw [hfields.2.2.1, hls]
      rfl
    · show alookup (addCardsState now svc
          (.dict rawSetId (.isList [.dict raw]))).state.cards
          (composeCardKey rawSetId.asStr c) = _
      rw [addCardsState_single now svc rawSetId raw c hstr hknown hverdict,
        hex, alookup_aset, if_pos rfl]
  · intro hnone t1 t2
    have hfr := addCards_frame t1 svc (.dict rawSetId (.isList [.dict raw]))
    have hknown1 : (addCardsState t1 svc
        (.dict rawSetId (.isList [.dict raw]))).catalog.isKnownSet
        rawSetId.asStr = true := by
      show (addCards t1 svc
          (.dict rawSetId (.isList [.dict raw]))).svc.catalog.isKnownSet
          rawSetId.asStr = true
      rw [hfr.2]
      exact hknown
    have hverdict1 : slotVerdict (addCardsState t1 svc
        (.dict rawSetId (.isList [.dict raw]))).catalog rawSetId.asStr
        (.dict raw) = .valid c := by
      show slotVerdict (addCards t1 svc
          (.dict rawSetId (.isList [.dict raw]))).svc.catalog rawSetId.asStr
          (.dict raw) = .valid c
      rw [hfr.2]
      exact hverdict
    have h1 : (addCardsState t1 svc
        (.dict rawSetId (.isList [.dict raw]))).state.cards =
        aset svc.state.cards (composeCardKey rawSetId.asStr c)
          { card_id := c, set_id := rawSetId.asStr, quantity_owned := 1,
            first_obtained_at := t1, last_obtained_at := t1,
            ever_new_discovery := true } := by
      rw [addCardsState_single t1 svc rawSetId raw c hstr hknown hverdict,
        hnone]
    have hex1 : alookup (addCardsState t1 svc
        (.dict rawSetId (.isList [.dict raw]))).state.cards
        (composeCardKey rawSetId.asStr c) =
        some { card_id := c, set_id := rawSetId.asStr, quantity_owned := 1,
               first_obtained_at := t1, last_obtained_at := t1,
               ever_new_discovery := true } := by
      rw [h1, alookup_aset, if_pos rfl]
    rw [addCardsState_single t2 _ rawSetId raw c hstr hknown1 hverdict1,
      hex1, alookup_aset, if_pos rfl]
    rfl

/-- The freshly initialized service used to instantiate the duplicate- and
two-pack-ingestion theorem. -/
def c7svc : Service := initService cexCfg cexCatalog .emptyDict "t0"

/-- C7 witness: the theorem applied to card "a" of set "s1" on a freshly
initialized service, where the card is not yet recorded, so the two-pack
branch applies with concrete timestamps. -/
theorem c7_duplicate_ingestion_witness :
    ((PyScalar.pstr "s1").isStr = true ∧
      c7svc.catalog.isKnownSet (PyScalar.pstr "s1").asStr = true ∧
      (∀ s ∈ c7svc.cfg.progression_order,
        c7svc.catalog.isKnownSet s = true) ∧
      slotVerdict c7svc.catalog (PyScalar.pstr "s1").asStr
        (.dict (.pstr "a")) = .valid "a") ∧
    ((∀ (now : String) (ex : CardRecord),
      alookup c7svc.state.cards
        (composeCardKey (PyScalar.pstr "s1").asStr "a") = some ex →
      ∃ out,
        (addCards now c7svc
          (.dict (.pstr "s1") (.isList [.dict (.pstr "a")]))).res = .ok out ∧
        out.duplicate_increments = 1 ∧ out.new_discoveries = 0 ∧
        out.cards_written = 1 ∧
        alookup (addCards now c7svc
            (.dict (.pstr "s1")
              (.isList [.dict (.pstr "a")]))).svc.state.cards
          (composeCardKey (PyScalar.pstr "s1").asStr "a") =
          some { ex with
                 quantity_owned := ex.quantity_owned + 1
                 last_obtained_at := now }) ∧
    (alookup c7svc.state.cards
        (composeCardKey (PyScalar.pstr "s1").asStr "a") = none →
      ∀ t1 t2 : String,
      alookup (addCardsState t2
          (addCardsState t1 c7svc
            (.dict (.pstr "s1") (.isList [.dict (.pstr "a")])))
          (.dict (.pstr "s1") (.isList [.dict (.pstr "a")]))).state.cards
        (composeCardKey (PyScalar.pstr "s1").asStr "a") =
        some { card_id := "a", set_id := (PyScalar.pstr "s1").asStr,
               quantity_owned := 2, first_obtained_at := t1,
               last_obtained_at := t2, ever_new_discovery := true })) :=
  ⟨⟨by decide, by decide, by decide, by decide⟩,
    c7_duplicate_ingestion c7svc (.pstr "s1") (.pstr "a") "a" (by decide)
      (by decide) (by decide) (by decide)⟩


/-! ## C9: invalid persisted card records are dropped on load -/

/-- The failure condition of the persisted-record validation chain, as a
boolean: the record is not a dict, or one of the per-field checks of
`_validate_card_record` fails. -/
def badCardRecord (cat : Catalog) (key : PyScalar) : RawRecVal → Bool
  | .nonDict => true
  | .dict card_id set_id quantity first last flag =>
      !card_id.isStr || card_id.asStr == "" ||
      !set_id.isStr || !cat.isKnownSet set_id.asStr ||
      !cat.isKnownCardInSet card_id.asStr set_id.asStr ||
      key.asStr != composeCardKey set_id.asStr card_id.asStr ||
      !quantity.isInt || decide (quantity.asInt < 0) ||
      !first.isStr || !last.isStr || !flag.isBool

theorem validateCardRecord_none_of_bad (cat : Catalog) (key : PyScalar)
    (rec : RawRecVal) (hbad : badCardRecord cat key rec = true) :
    validateCardRecord cat key rec = none := by
  cases rec with
  | nonDict => rfl
  | dict ci si q f l fl =>
      unfold validateCardRecord
      unfold badCardRecord at hbad
      dsimp only
      dsimp only at hbad
      split_ifs <;> try rfl
      exfalso
      simp_all
      omega

theorem validateCardRecord_isStr {cat : Catalog} {key : PyScalar}
    {rec : RawRecVal} {r : CardRecord}
    (h : validateCardRecord cat key rec = some r) : key.isStr = true := by
  cases rec with
  | nonDict => exact absurd h (by simp [validateCardRecord])
  | dict ci si q f l fl =>
      by_cases hk : key.isStr = true
      · exact hk
      · exfalso
        unfold validateCardRecord at h
        dsimp only at h
        rw [if_pos hk] at h
        exact absurd h (by simp)

theorem isStr_eq_pstr (k : PyScalar) (h : k.isStr = true) :
    k = .pstr k.asStr := by
  cases k <;> simp_all [PyScalar.isStr, PyScalar.asStr]

/-- If every raw-cards entry stored under the string key `ks` fails
validation, the sanitized cards dict has no entry at `ks`. -/
theorem sanitizeCards_lookup_none (cat : Catalog) (ks : String) :
    ∀ entries : List (PyScalar × RawRecVal),
    (∀ p ∈ entries, p.1 = .pstr ks →
      validateCardRecord cat p.1 p.2 = none) →
    alookup (sanitizeCards cat entries) ks = none
  | [], _ => rfl
  | (k, rec) :: rest, hall => by
      unfold sanitizeCards
      rcases hv : validateCardRecord cat k rec with _ | r
      · exact sanitizeCards_lookup_none cat ks rest
          (fun p hp hk => hall p (List.mem_cons_of_mem _ hp) hk)
      · have hks : k.isStr = true := validateCardRecord_isStr hv
        have hne : k ≠ .pstr ks := by
          intro he
          have hnone := hall (k, rec) (List.mem_cons_self _ _) he
          rw [hv] at hnone
          exact absurd hnone (by simp)
        rw [alookup_cons, if_neg ?_]
        · exact sanitizeCards_lookup_none cat ks rest
            (fun p hp hk => hall p (List.mem_cons_of_mem _ hp) hk)
        · intro heq
          exact hne (by rw [isStr_eq_pstr k hks, heq])

/-- C9: loading a persisted state whose cards dict stores, under some string
key, only records failing the validation chain — a set id unknown to the
catalog, a key not matching `set_id::card_id`, a card not in the claimed
set, a negative or non-integer quantity, malformed timestamps, or a
malformed discovery flag — yields an in-memory service without any record
at that key.  Construction is a total function (startup never aborts), and
the initial persist writes exactly this in-memory state, so a subsequent
save no longer contains the record. -/
theorem c9_invalid_record_dropped (cfg : ProgCfg) (cat : Catalog)
    (now : String) (r : RawState) (entries : List (PyScalar × RawRecVal))
    (ks : String)
    (hc : r.cards = .dict entries)
    (hbad : ∀ p ∈ entries, p.1 = .pstr ks →
      badCardRecord cat p.1 p.2 = true) :
    alookup (initService cfg cat (.dict r) now).state.cards ks = none := by
  have hcards : (initService cfg cat (.dict r) now).state.cards =
      sanitizeCards cat entries := by
    unfold initService
    dsimp only
    rw [(ensureInitialUnlock_frame now _).2.2.2]
    show (validateOrInit cfg cat (.dict r)).cards = _
    unfold validateOrInit
    dsimp only
    rw [hc]
  rw [hcards]
  exact sanitizeCards_lookup_none cat ks entries
    (fun p hp hk =>
      validateCardRecord_none_of_bad cat p.1 p.2 (hbad p hp hk))

/-- The raw cards entries of the C9 witness: one record under key
`"sX::q"` whose set id `"sX"` is unknown to the catalog. -/
def c9entries : List (PyScalar × RawRecVal) :=
  [(.pstr "sX::q",
    .dict (.pstr "q") (.pstr "sX") (.pint 1) (.pstr "t") (.pstr "t")
      (.pbool true))]

/-- The raw persisted state of the C9 witness. -/
def c9raw : RawState :=
  { version := .pint 1, cards := .dict c9entries, unlocked_sets := .list [],
    set_milestones := .dict [], events := .list [], pack_history := .list [] }

/-- C9 witness: a persisted card record referencing the unknown set `"sX"`
is absent from the in-memory cards dict after construction. -/
theorem c9_invalid_record_dropped_witness :
    (c9raw.cards = .dict c9entries ∧
      ∀ p ∈ c9entries, p.1 = .pstr "sX::q" →
        badCardRecord cexCatalog p.1 p.2 = true) ∧
    alookup (initService cexCfg cexCatalog (.dict c9raw) "t0").state.cards
      "sX::q" = none :=
  ⟨⟨rfl, by decide⟩,
    c9_invalid_record_dropped cexCfg cexCatalog "t0" c9raw c9entries "sX::q"
      rfl (by decide)⟩


/-! ## C6: pack size invariant -/

theorem pickFromPool_err {rarity : String} {pool : List String}
    {src : RandSrc} {seed : Int} {g : Nat} {used : List String}
    {allowDup : Bool} {e : PackErr}
    (h : pickFromPool rarity pool src seed g used allowDup = .error e) :
    e = .emptyPool rarity ∨ e = .noAvailable rarity := by
  unfold pickFromPool at h
  split_ifs at h <;> simp_all

theorem pickFromPool_ok_g {rarity : String} {pool : List String}
    {src : RandSrc} {seed : Int} {g : Nat} {used : List String}
    {allowDup : Bool} {c : String} {g2 : Nat}
    (h : pickFromPool rarity pool src seed g used allowDup = .ok (c, g2)) :
    g2 = g + 1 := by
  unfold pickFromPool at h
  split_ifs at h <;> simp_all

theorem validate_err_shape {c : PackConfig} {e : PackErr}
    (h : c.validate = .error e) : e = .configError := by
  unfold PackConfig.validate at h
  by_cases h1 : c.rare_slots < 0 ∨ c.uncommon_slots < 0 ∨ c.common_slots < 0
  · rw [if_pos h1] at h
    exact ((Except.error.injEq _ _).mp h).symm
  · rw [if_neg h1] at h
    by_cases h2 :
      c.rare_slots + c.uncommon_slots + c.common_slots ≠ (PACK_SIZE : Int)
    · rw [if_pos h2] at h
      exact ((Except.error.injEq _ _).mp h).symm
    · rw [if_neg h2] at h
      by_cases h3 : ¬ (0 ≤ c.holo_upgrade_chance ∧ c.holo_upgrade_chance ≤ 1)
      · rw [if_pos h3] at h
        exact ((Except.error.injEq _ _).mp h).symm
      · rw [if_neg h3] at h
        rcases hp : c.pity_after_packs with _ | p <;> rw [hp] at h <;>
          dsimp only at h
        · exact absurd h (by simp)
        · by_cases h4 : p ≤ 0
          · rw [if_pos h4] at h
            exact ((Except.error.injEq _ _).mp h).symm
          · rw [if_neg h4] at h
            exact absurd h (by simp)

theorem validate_ok_slots {c : PackConfig} {u : Unit} (h : c.validate = .ok u) :
    c.rare_slots.toNat + c.uncommon_slots.toNat + c.common_slots.toNat =
      PACK_SIZE := by
  unfold PackConfig.validate at h
  by_cases h1 : c.rare_slots < 0 ∨ c.uncommon_slots < 0 ∨ c.common_slots < 0
  · rw [if_pos h1] at h
    exact absurd h (by simp)
  · rw [if_neg h1] at h
    by_cases h2 :
      c.rare_slots + c.uncommon_slots + c.common_slots ≠ (PACK_SIZE : Int)
    · rw [if_pos h2] at h
      exact absurd h (by simp)
    · push_neg at h1 h2
      simp only [PACK_SIZE] at h2 ⊢
      omega

theorem loadPool_err {w : World} {setId : String} {e : PackErr}
    (h : loadPool w setId = .error e) :
    e = .poolNotFound ∨ e = .poolMalformed := by
  unfold loadPool at h
  rcases hpf : w.poolFile setId with _ | pf <;> rw [hpf] at h <;>
    try dsimp only at h
  · exact .inl ((Except.error.injEq _ _).mp h).symm
  · rcases pf with _ | ⟨c, u, r, ho⟩ <;> dsimp only at h
    · exact .inr ((Except.error.injEq _ _).mp h).symm
    · rcases c with _ | cs <;> rcases u with _ | us <;> rcases r with _ | rs <;>
        rcases ho with _ | hs <;> dsimp only at h <;>
        first
          | exact .inr ((Except.error.injEq _ _).mp h).symm
          | exact absurd h (by simp)

theorem drawRare_length (src : RandSrc) (seed : Int) (chance : ℚ)
    (allowDup : Bool) (rarePool holoPool owned : List String)
    (nameOf : String → String) :
    ∀ (n i : Nat) (st : DrawSt) (slots : List PSlot) (dbgs : List RollDbg)
      (st2 : DrawSt),
    drawRare src seed chance allowDup rarePool holoPool owned nameOf n i st =
      .ok (slots, dbgs, st2) → slots.length = n
  | 0, i, st, slots, dbgs, st2, h => by
      have h2 : (Except.ok ([], [], st) :
          Except PackErr (List PSlot × List RollDbg × DrawSt)) =
          .ok (slots, dbgs, st2) := h
      simp only [Except.ok.injEq, Prod.mk.injEq] at h2
      rw [← h2.1]
      rfl
  | n + 1, i, st, slots, dbgs, st2, h => by
      unfold drawRare at h
      split at h
      · exact absurd h (by simp)
      · split at h
        · exact absurd h (by simp)
        · rename_i heq1 x heq2
          simp only [Except.ok.injEq, Prod.mk.injEq] at h
          rw [← h.1]
          simp only [List.length_cons]
          have := drawRare_length src seed chance allowDup rarePool holoPool
            owned nameOf n (i + 1) _ _ _ _ heq2
          omega

theorem drawRare_err (src : RandSrc) (seed : Int) (chance : ℚ)
    (allowDup : Bool) (rarePool holoPool owned : List String)
    (nameOf : String → String) :
    ∀ (n i : Nat) (st : DrawSt) (e : PackErr),
    drawRare src seed chance allowDup rarePool holoPool owned nameOf n i st =
      .error e → e ≠ .sizeInvariant
  | 0, i, st, e, h => absurd h (by simp [drawRare])
  | n + 1, i, st, e, h => by
      unfold drawRare at h
      split at h
      · rename_i e2 hpick
        have hsh := pickFromPool_err hpick
        have he : e2 = e := (Except.error.injEq _ _).mp h
        rcases hsh with h1 | h1 <;> rw [← he, h1] <;> simp
      · split at h
        · rename_i x heq1 e2 heq2
          have he : e2 = e := (Except.error.injEq _ _).mp h
          rw [← he]
          exact drawRare_err src seed chance allowDup rarePool holoPool owned
            nameOf n (i + 1) _ _ heq2
        · exact absurd h (by simp)

theorem drawFixed_length (src : RandSrc) (seed : Int) (allowDup : Bool)
    (rarity : String) (pool owned : List String) (nameOf : String → String) :
    ∀ (n : Nat) (st : DrawSt) (slots : List PSlot) (st2 : DrawSt),
    drawFixed src seed allowDup rarity pool owned nameOf n st =
      .ok (slots, st2) → slots.length = n
  | 0, st, slots, st2, h => by
      have h2 : (Except.ok ([], st) :
          Except PackErr (List PSlot × DrawSt)) = .ok (slots, st2) := h
      simp only [Except.ok.injEq, Prod.mk.injEq] at h2
      rw [← h2.1]
      rfl
  | n + 1, st, slots, st2, h => by
      unfold drawFixed at h
      split at h
      · exact absurd h (by simp)
      · split at h
        · exact absurd h (by simp)
        · rename_i heq1 x heq2
          simp only [Except.ok.injEq, Prod.mk.injEq] at h
          rw [← h.1]
          simp only [List.length_cons]
          have := drawFixed_length src seed allowDup rarity pool owned nameOf
            n _ _ _ heq2
          omega

theorem drawFixed_err (src : RandSrc) (seed : Int) (allowDup : Bool)
    (rarity : String) (pool owned : List String) (nameOf : String → String) :
    ∀ (n : Nat) (st : DrawSt) (e : PackErr),
    drawFixed src seed allowDup rarity pool owned nameOf n st = .error e →
      e ≠ .sizeInvariant
  | 0, st, e, h => absurd h (by simp [drawFixed])
  | n + 1, st, e, h => by
      unfold drawFixed at h
      split at h
      · rename_i e2 hpick
        have hsh := pickFromPool_err hpick
        have he : e2 = e := (Except.error.injEq _ _).mp h
        rcases hsh with h1 | h1 <;> rw [← he, h1] <;> simp
      · split at h
        · rename_i x heq1 e2 heq2
          have he : e2 = e := (Except.error.injEq _ _).mp h
          rw [← he]
          exact drawFixed_err src seed allowDup rarity pool owned nameOf n _ _
            heq2
        · exact absurd h (by simp)

/-- C6: whenever `open_pack` returns normally the slots list has exactly
`PACK_SIZE = 10` entries (as do the reported totals), and the
"Pack size invariant violated" branch is unreachable: no input makes
`open_pack` raise that error. -/
theorem c6_pack_size (setId : String) (cfg : PackConfig)
    (owned : List String) (src : RandSrc) (seed : Int) (pd : String)
    (w : World) :
    (∀ r, openPack setId cfg owned src seed pd w = .ok r →
      r.slots.length = PACK_SIZE ∧ r.pack_size = PACK_SIZE ∧
      r.total_cards = PACK_SIZE) ∧
    openPack setId cfg owned src seed pd w ≠ .error .sizeInvariant := by
  unfold openPack
  by_cases hempty : setId = ""
  · rw [if_pos hempty]
    exact ⟨fun r hr => absurd hr (by simp), by simp⟩
  · rw [if_neg hempty]
    split
    · rename_i e hv
      refine ⟨fun r hr => absurd hr (by simp), ?_⟩
      intro hr
      have he : e = PackErr.sizeInvariant := (Except.error.injEq _ _).mp hr
      rw [validate_err_shape hv] at he
      exact absurd he (by simp)
    · rename_i u hv
      split
      · rename_i e hl
        refine ⟨fun r hr => absurd hr (by simp), ?_⟩
        intro hr
        have he : e = PackErr.sizeInvariant := (Except.error.injEq _ _).mp hr
        rcases loadPool_err hl with h1 | h1 <;> rw [h1] at he <;>
          exact absurd he (by simp)
      · rename_i pools hl
        split
        · rename_i e hd
          refine ⟨fun r hr => absurd hr (by simp), ?_⟩
          intro hr
          have he : e = PackErr.sizeInvariant := (Except.error.injEq _ _).mp hr
          exact absurd he (drawRare_err _ _ _ _ _ _ _ _ _ _ _ _ hd)
        · rename_i rareSlots rollDbg st1 hd
          split
          · rename_i e hu
            refine ⟨fun r hr => absurd hr (by simp), ?_⟩
            intro hr
            have he : e = PackErr.sizeInvariant :=
              (Except.error.injEq _ _).mp hr
            exact absurd he (drawFixed_err _ _ _ _ _ _ _ _ _ _ hu)
          · rename_i uncSlots st2 hu
            split
            · rename_i e hc
              refine ⟨fun r hr => absurd hr (by simp), ?_⟩
              intro hr
              have he : e = PackErr.sizeInvariant :=
                (Except.error.injEq _ _).mp hr
              exact absurd he (drawFixed_err _ _ _ _ _ _ _ _ _ _ hc)
            · rename_i comSlots st3 hc
              have hlen : (rareSlots ++ uncSlots ++ comSlots).length =
                  PACK_SIZE := by
                have h1 := drawRare_length _ _ _ _ _ _ _ _ _ _ _ _ _ _ hd
                have h2 := drawFixed_length _ _ _ _ _ _ _ _ _ _ _ hu
                have h3 := drawFixed_length _ _ _ _ _ _ _ _ _ _ _ hc
                have h4 := validate_ok_slots hv
                simp only [List.length_append, h1, h2, h3]
                omega
              rw [if_neg (by rw [hlen]; simp)]
              constructor
              · intro r hr
                have hre : _ = r := (Except.ok.injEq _ _).mp hr
                rw [← hre]
                exact ⟨hlen, hlen, hlen⟩
              · intro hr
                exact absurd hr (by simp)

/-- The constant-zero random stream used to instantiate the pack-engine
theorems. -/
def src0 : RandSrc :=
  { rnd := fun _ _ => 0, choiceAt := fun _ _ _ => 0,
    rnd_nonneg := fun _ _ => le_refl 0, rnd_lt_one := fun _ _ => by norm_num }

/-- A one-set world: set `"s1"` has pools `common ["c1"]`, `uncommon
["u1"]`, `rare ["r1"]`, `holo ["h1"]`, and no metadata files. -/
def w0 : World :=
  { poolFile := fun sid =>
      if sid = "s1" then
        some (.withPools (.list [.pstr "c1"]) (.list [.pstr "u1"])
          (.list [.pstr "r1"]) (.list [.pstr "h1"]))
      else none
    meta := fun _ _ => .missing }

/-- C6 witness: the theorem applied at the concrete one-set world. -/
theorem c6_pack_size_witness :
    (∀ r, openPack "s1" {} [] src0 5 "pools" w0 = .ok r →
      r.slots.length = PACK_SIZE ∧ r.pack_size = PACK_SIZE ∧
      r.total_cards = PACK_SIZE) ∧
    openPack "s1" {} [] src0 5 "pools" w0 ≠ .error .sizeInvariant :=
  c6_pack_size "s1" {} [] src0 5 "pools" w0


/-! ## C4: holo upgrade condition -/

/-- Default slot for `List.getD`. -/
def dummySlot : PSlot :=
  { slot_index := 0, slot_type := "", rarity := "", card_id := "",
    card_name := "", is_new := false, is_duplicate := true }

/-- The rarity expression of a rare slot, characterized. -/
theorem holo_upgrade_iff (roll chance : ℚ) (holoPool : List String) :
    ((if (decide (roll < chance) && decide (holoPool ≠ [])) = true
      then "holo" else "rare") = "holo" ↔ roll < chance ∧ holoPool ≠ []) ∧
    ((if (decide (roll < chance) && decide (holoPool ≠ [])) = true
      then "holo" else "rare") = "holo" ∨
     (if (decide (roll < chance) && decide (holoPool ≠ [])) = true
      then "holo" else "rare") = "rare") := by
  by_cases hc : roll < chance ∧ holoPool ≠ []
  · rw [if_pos (by simp [hc.1, hc.2])]
    exact ⟨⟨fun _ => hc, fun _ => rfl⟩, .inl rfl⟩
  · rw [if_neg (by simpa using hc)]
    exact ⟨⟨fun hh => absurd hh (by decide), fun hh => absurd hh hc⟩,
      .inr rfl⟩

/-- Per-slot characterization of the rare-slot loop: slot `j` of a
successful run is a "rare"-type slot whose rarity is `"holo"` exactly when
the roll consumed at generator position `st.g + 2 * j` is below the upgrade
chance and the holo pool is non-empty; otherwise its rarity is `"rare"`. -/
theorem drawRare_rarity (src : RandSrc) (seed : Int) (chance : ℚ)
    (allowDup : Bool) (rarePool holoPool owned : List String)
    (nameOf : String → String) :
    ∀ (n i : Nat) (st : DrawSt) (slots : List PSlot) (dbgs : List RollDbg)
      (st2 : DrawSt),
    drawRare src seed chance allowDup rarePool holoPool owned nameOf n i st =
      .ok (slots, dbgs, st2) →
    ∀ j < n,
      (slots.getD j dummySlot).slot_type = "rare" ∧
      ((slots.getD j dummySlot).rarity = "holo" ↔
        src.rnd seed (st.g + 2 * j) < chance ∧ holoPool ≠ []) ∧
      ((slots.getD j dummySlot).rarity = "holo" ∨
        (slots.getD j dummySlot).rarity = "rare")
  | 0, i, st, slots, dbgs, st2, h => fun j hj =>
      absurd hj (Nat.not_lt_zero j)
  | n + 1, i, st, slots, dbgs, st2, h => by
      unfold drawRare at h
      split at h
      · exact absurd h (by simp)
      · rename_i cardId g2 hpick
        split at h
        · exact absurd h (by simp)
        · rename_i slots3 dbgs3 st3 heq2
          simp only [Except.ok.injEq, Prod.mk.injEq] at h
          rw [← h.1]
          intro j hj
          rcases j with _ | j
          · have hh := holo_upgrade_iff (src.rnd seed st.g) chance holoPool
            refine ⟨rfl, ?_, ?_⟩
            · simpa using hh.1
            · simpa using hh.2
          · have hg := pickFromPool_ok_g hpick
            have ih := drawRare_rarity src seed chance allowDup rarePool
              holoPool owned nameOf n (i + 1) _ _ _ _ heq2 j
              (Nat.lt_of_succ_lt_succ hj)
            dsimp only at ih
            rw [hg] at ih
            have harith : st.g + 1 + 1 + 2 * j = st.g + 2 * (j + 1) := by
              omega
            rw [harith] at ih
            simpa only [List.getD_cons_succ] using ih

/-- C4: in every pack `open_pack` returns, each of the first `rare_slots`
slots is a rare-type slot whose rarity is `"holo"` exactly when its uniform
roll (the `2 j`-th generator output) is strictly below `holo_upgrade_chance`
and the holo pool is non-empty; with `holo_upgrade_chance = 0` no slot is
ever holo (rolls are never below 0), and with `holo_upgrade_chance = 1` but
an empty holo pool every rare slot has rarity `"rare"`. -/
theorem c4_holo_upgrade (setId : String) (cfg : PackConfig)
    (owned : List String) (src : RandSrc) (seed : Int) (pd : String)
    (w : World) (r : PackResultR) (pools : Pools)
    (hok : openPack setId cfg owned src seed pd w = .ok r)
    (hp : loadPool w setId = .ok pools) :
    ∀ j < cfg.rare_slots.toNat,
      (r.slots.getD j dummySlot).slot_type = "rare" ∧
      ((r.slots.getD j dummySlot).rarity = "holo" ↔
        src.rnd seed (2 * j) < cfg.holo_upgrade_chance ∧ pools.holo ≠ []) ∧
      (cfg.holo_upgrade_chance = 0 →
        (r.slots.getD j dummySlot).rarity = "rare") ∧
      (cfg.holo_upgrade_chance = 1 ∧ pools.holo = [] →
        (r.slots.getD j dummySlot).rarity = "rare") := by
  unfold openPack at hok
  by_cases hempty : setId = ""
  · rw [if_pos hempty] at hok
    exact absurd hok (by simp)
  · rw [if_neg hempty] at hok
    split at hok
    · exact absurd hok (by simp)
    · split at hok
      · exact absurd hok (by simp)
      · rename_i pools2 hl
        rw [hp] at hl
        have hpe : pools = pools2 := (Except.ok.injEq _ _).mp hl
        subst hpe
        split at hok
        · exact absurd hok (by simp)
        · rename_i rareSlots rollDbg st1 hd
          split at hok
          · exact absurd hok (by simp)
          · rename_i uncSlots st2 hu
            split at hok
            · exact absurd hok (by simp)
            · rename_i comSlots st3 hc
              split at hok
              · exact absurd hok (by simp)
              · have hre : _ = r := (Except.ok.injEq _ _).mp hok
                rw [← hre]
                intro j hj
                have hlenr := drawRare_length _ _ _ _ _ _ _ _ _ _ _ _ _ _ hd
                have hspec :=
                  drawRare_rarity _ _ _ _ _ _ _ _ _ _ _ _ _ _ hd j hj
                dsimp only at hspec
                simp only [Nat.zero_add] at hspec
                have hj1 : j < rareSlots.length := by rw [hlenr]; exact hj
                have hj2 : j < (rareSlots ++ uncSlots).length := by
                  simp only [List.length_append]
                  omega
                dsimp only
                rw [List.getD_append _ _ _ _ hj2, List.getD_append _ _ _ _ hj1]
                refine ⟨hspec.1, hspec.2.1, ?_, ?_⟩
                · intro h0
                  rw [h0] at hspec
                  have hnl : ¬ (src.rnd seed (2 * j) < 0 ∧
                      pools.holo ≠ []) := fun hcon =>
                    absurd hcon.1 (not_lt.mpr (src.rnd_nonneg seed (2 * j)))
                  rcases hspec.2.2 with hcase | hcase
                  · exact absurd (hspec.2.1.mp hcase) hnl
                  · exact hcase
                · intro hcon
                  rcases hcon with ⟨h1c, hemp⟩
                  have hnl : ¬ (src.rnd seed (2 * j) <
                      cfg.holo_upgrade_chance ∧ pools.holo ≠ []) := by
                    rw [hemp]
                    exact fun hcon2 => hcon2.2 rfl
                  rcases hspec.2.2 with hcase | hcase
                  · exact absurd (hspec.2.1.mp hcase) hnl
                  · exact hcase

/-- The zero-upgrade-chance config used to instantiate the C4 theorem. -/
def cfg0 : PackConfig := { holo_upgrade_chance := 0 }

/-- The pools of set `"s1"` of the one-set world. -/
def pools0 : Pools :=
  { common := ["c1"], uncommon := ["u1"], rare := ["r1"], holo := ["h1"] }

/-- The pack produced at the zero-chance config on the one-set world. -/
def c4res : PackResultR :=
  { set_id := "s1", seed := 5, config := cfg0, pools_dir := "pools",
    holo_upgrade_probability := 0,
    rare_slot_rolls := [{ rare_slot_index := 1, roll := round6 0,
                          threshold := 0, upgraded_to_holo := false }],
    slots := [
      { slot_index := 1, slot_type := "rare", rarity := "rare",
        card_id := "r1", card_name := "r1", is_new := true,
        is_duplicate := false },
      { slot_index := 2, slot_type := "uncommon", rarity := "uncommon",
        card_id := "u1", card_name := "u1", is_new := true,
        is_duplicate := false },
      { slot_index := 3, slot_type := "uncommon", rarity := "uncommon",
        card_id := "u1", card_name := "u1", is_new := true,
        is_duplicate := false },
      { slot_index := 4, slot_type := "uncommon", rarity := "uncommon",
        card_id := "u1", card_name := "u1", is_new := true,
        is_duplicate := false },
      { slot_index := 5, slot_type := "common", rarity := "common",
        card_id := "c1", card_name := "c1", is_new := true,
        is_duplicate := false },
      { slot_index := 6, slot_type := "common", rarity := "common",
        card_id := "c1", card_name := "c1", is_new := true,
        is_duplicate := false },
      { slot_index := 7, slot_type := "common", rarity := "common",
        card_id := "c1", card_name := "c1", is_new := true,
        is_duplicate := false },
      { slot_index := 8, slot_type := "common", rarity := "common",
        card_id := "c1", card_name := "c1", is_new := true,
        is_duplicate := false },
      { slot_index := 9, slot_type := "common", rarity := "common",
        card_id := "c1", card_name := "c1", is_new := true,
        is_duplicate := false },
      { slot_index := 10, slot_type := "common", rarity := "common",
        card_id := "c1", card_name := "c1", is_new := true,
        is_duplicate := false }],
    total_cards := 10, pack_size := 10, new_cards := 10,
    duplicate_cards := 0 }

/-- C4 witness: the theorem applied to a concrete zero-chance pack draw on
the one-set world (whose full result evaluates to `c4res`). -/
theorem c4_holo_upgrade_witness :
    (openPack "s1" cfg0 [] src0 5 "pools" w0 = .ok c4res ∧
      loadPool w0 "s1" = .ok pools0) ∧
    ∀ j < cfg0.rare_slots.toNat,
      (c4res.slots.getD j dummySlot).slot_type = "rare" ∧
      ((c4res.slots.getD j dummySlot).rarity = "holo" ↔
        src0.rnd 5 (2 * j) < cfg0.holo_upgrade_chance ∧ pools0.holo ≠ []) ∧
      (cfg0.holo_upgrade_chance = 0 →
        (c4res.slots.getD j dummySlot).rarity = "rare") ∧
      (cfg0.holo_upgrade_chance = 1 ∧ pools0.holo = [] →
        (c4res.slots.getD j dummySlot).rarity = "rare") :=
  ⟨⟨rfl, rfl⟩,
    c4_holo_upgrade "s1" cfg0 [] src0 5 "pools" w0 c4res pools0 rfl rfl⟩


/-! ## C2: determinism of the drawn slot sequence -/

/-- The observable core of a slot: everything except the binder-dependent
`is_new` / `is_duplicate` flags. -/
structure SlotCore where
  slot_index : Nat
  slot_type : String
  rarity : String
  card_id : String
  card_name : String
  deriving Repr, DecidableEq

/-- Project a slot to its binder-independent core. -/
def PSlot.core (s : PSlot) : SlotCore :=
  { slot_index := s.slot_index, slot_type := s.slot_type,
    rarity := s.rarity, card_id := s.card_id, card_name := s.card_name }

theorem exceptMap_error_iff {ε α β : Type} (f : α → β) (x : Except ε α)
    (e : ε) : x.map f = .error e ↔ x = .error e := by
  cases x <;> simp [Except.map]

theorem exceptMap_ok_iff {ε α β : Type} (f : α → β) (x : Except ε α)
    (b : β) : x.map f = .ok b ↔ ∃ a, x = .ok a ∧ f a = b := by
  cases x <;> simp [Except.map]

/-- Two rare-slot runs differing only in the owned-card set agree on
everything except the `is_new` / `is_duplicate` flags. -/
theorem drawRare_core (src : RandSrc) (seed : Int) (chance : ℚ)
    (allowDup : Bool) (rarePool holoPool owned1 owned2 : List String)
    (nameOf : String → String) :
    ∀ (n i : Nat) (st : DrawSt),
    (drawRare src seed chance allowDup rarePool holoPool owned1 nameOf n i
        st).map (fun x => (x.1.map PSlot.core, x.2)) =
      (drawRare src seed chance allowDup rarePool holoPool owned2 nameOf n i
        st).map (fun x => (x.1.map PSlot.core, x.2))
  | 0, i, st => rfl
  | n + 1, i, st => by
      unfold drawRare
      rcases hp : pickFromPool
          (if decide (src.rnd seed st.g < chance) && decide (holoPool ≠ [])
            then "holo" else "rare")
          (if decide (src.rnd seed st.g < chance) && decide (holoPool ≠ [])
            then holoPool else rarePool)
          src seed (st.g + 1) st.used allowDup with e | p
      · rfl
      · rcases p with ⟨cardId, g2⟩
        dsimp only
        have ih := drawRare_core src seed chance allowDup rarePool holoPool
          owned1 owned2 nameOf n (i + 1)
          { g := g2, slotIndex := st.slotIndex + 1,
            used := addUnique st.used cardId }
        rcases h1 : drawRare src seed chance allowDup rarePool holoPool
            owned1 nameOf n (i + 1)
            { g := g2, slotIndex := st.slotIndex + 1,
              used := addUnique st.used cardId } with e1 | x1
        · rw [h1] at ih
          have h2 := (exceptMap_error_iff _ _ _).mp ih.symm
          rw [h2]
        · rcases x1 with ⟨s1, d1, t1⟩
          rw [h1] at ih
          simp only [Except.map] at ih
          have h2e := (exceptMap_ok_iff _ _ _).mp ih.symm
          rcases h2e with ⟨⟨s2, d2, t2⟩, h2, hfa⟩
          dsimp only at hfa
          simp only [Prod.mk.injEq] at hfa
          rcases hfa with ⟨hs, hd, ht⟩
          subst hd
          subst ht
          rw [h2]
          dsimp only
          simp only [Except.map, List.map_cons]
          rw [hs]
          rfl

/-- Two fixed-rarity runs differing only in the owned-card set agree on
everything except the `is_new` / `is_duplicate` flags. -/
theorem drawFixed_core (src : RandSrc) (seed : Int) (allowDup : Bool)
    (rarity : String) (pool owned1 owned2 : List String)
    (nameOf : String → String) :
    ∀ (n : Nat) (st : DrawSt),
    (drawFixed src seed allowDup rarity pool owned1 nameOf n st).map
        (fun x => (x.1.map PSlot.core, x.2)) =
      (drawFixed src seed allowDup rarity pool owned2 nameOf n st).map
        (fun x => (x.1.map PSlot.core, x.2))
  | 0, st => rfl
  | n + 1, st => by
      unfold drawFixed
      rcases hp : pickFromPool rarity pool src seed st.g st.used allowDup with
        e | p
      · rfl
      · rcases p with ⟨cardId, g2⟩
        dsimp only
        have ih := drawFixed_core src seed allowDup rarity pool owned1 owned2
          nameOf n
          { g := g2, slotIndex := st.slotIndex + 1,
            used := addUnique st.used cardId }
        rcases h1 : drawFixed src seed allowDup rarity pool owned1 nameOf n
            { g := g2, slotIndex := st.slotIndex + 1,
              used := addUnique st.used cardId } with e1 | x1
        · rw [h1] at ih
          have h2 := (exceptMap_error_iff _ _ _).mp ih.symm
          rw [h2]
        · rcases x1 with ⟨s1, t1⟩
          rw [h1] at ih
          simp only [Except.map] at ih
          have h2e := (exceptMap_ok_iff _ _ _).mp ih.symm
          rcases h2e with ⟨⟨s2, t2⟩, h2, hfa⟩
          dsimp only at hfa
          simp only [Prod.mk.injEq] at hfa
          rcases hfa with ⟨hs, ht⟩
          subst ht
          rw [h2]
          dsimp only
          simp only [Except.map, List.map_cons]
          rw [hs]
          rfl

/-- C2: `open_pack` is deterministic in the draw-relevant inputs.  For a
fixed set id, config, and seed, any two calls against worlds with the same
pool file and the same per-card metadata for that set — regardless of the
binder state and of the pools directory name — produce identical slot
sequences up to the binder-derived `is_new` / `is_duplicate` flags: same
slot indices, slot types, rarities, card ids, card names, in the same
order (and identical errors when either call fails). -/
theorem c2_deterministic (setId : String) (cfg : PackConfig)
    (owned1 owned2 : List String) (src : RandSrc) (seed : Int)
    (pd1 pd2 : String) (w1 w2 : World)
    (hpool : w1.poolFile setId = w2.poolFile setId)
    (hmeta : ∀ c, w1.meta setId c = w2.meta setId c) :
    (openPack setId cfg owned1 src seed pd1 w1).map
        (fun r => r.slots.map PSlot.core) =
      (openPack setId cfg owned2 src seed pd2 w2).map
        (fun r => r.slots.map PSlot.core) := by
  have hlp : loadPool w1 setId = loadPool w2 setId := by
    unfold loadPool
    rw [hpool]
  have hname : (fun c => readCardName w1 setId c) =
      (fun c => readCardName w2 setId c) := by
    funext c
    unfold readCardName
    rw [hmeta c]
  unfold openPack
  by_cases hempty : setId = ""
  · rw [if_pos hempty, if_pos hempty]
  · rw [if_neg hempty, if_neg hempty]
    rcases hv : cfg.validate with e | u <;> dsimp only
    rw [← hlp]
    rcases hl : loadPool w1 setId with e | pools <;> dsimp only
    rw [← hname]
    have ihr := drawRare_core src seed cfg.holo_upgrade_chance
      cfg.allow_duplicates_within_pack pools.rare pools.holo owned1
      owned2 (fun c => readCardName w1 setId c) cfg.rare_slots.toNat 0
      { g := 0, slotIndex := 1, used := [] }
    rcases hd1 : drawRare src seed cfg.holo_upgrade_chance
        cfg.allow_duplicates_within_pack pools.rare pools.holo owned1
        (fun c => readCardName w1 setId c) cfg.rare_slots.toNat 0
        { g := 0, slotIndex := 1, used := [] } with e1 | x1
    · rw [hd1] at ihr
      have hd2 := (exceptMap_error_iff _ _ _).mp ihr.symm
      rw [hd2]
    · rcases x1 with ⟨rs1, db1, t1⟩
      rw [hd1] at ihr
      simp only [Except.map] at ihr
      have hd2e := (exceptMap_ok_iff _ _ _).mp ihr.symm
      rcases hd2e with ⟨⟨rs2, db2, t2⟩, hd2, hfa⟩
      dsimp only at hfa
      simp only [Prod.mk.injEq] at hfa
      obtain ⟨hrcore, hdb, ht⟩ := hfa
      subst hdb
      subst ht
      rw [hd2]
      dsimp only
      have ihu := drawFixed_core src seed
        cfg.allow_duplicates_within_pack "uncommon" pools.uncommon
        owned1 owned2 (fun c => readCardName w1 setId c)
        cfg.uncommon_slots.toNat t2
      rcases hu1 : drawFixed src seed cfg.allow_duplicates_within_pack
          "uncommon" pools.uncommon owned1
          (fun c => readCardName w1 setId c) cfg.uncommon_slots.toNat
          t2 with e1 | y1
      · rw [hu1] at ihu
        have hu2 := (exceptMap_error_iff _ _ _).mp ihu.symm
        rw [hu2]
      · rcases y1 with ⟨us1, p1⟩
        rw [hu1] at ihu
        simp only [Except.map] at ihu
        have hu2e := (exceptMap_ok_iff _ _ _).mp ihu.symm
        rcases hu2e with ⟨⟨us2, p2⟩, hu2, hfb⟩
        dsimp only at hfb
        simp only [Prod.mk.injEq] at hfb
        obtain ⟨hucore, hpe⟩ := hfb
        subst hpe
        rw [hu2]
        dsimp only
        have ihc := drawFixed_core src seed
          cfg.allow_duplicates_within_pack "common" pools.common owned1
          owned2 (fun c => readCardName w1 setId c)
          cfg.common_slots.toNat p2
        rcases hc1 : drawFixed src seed
            cfg.allow_duplicates_within_pack "common" pools.common
            owned1 (fun c => readCardName w1 setId c)
            cfg.common_slots.toNat p2 with e1 | z1
        · rw [hc1] at ihc
          have hc2 := (exceptMap_error_iff _ _ _).mp ihc.symm
          rw [hc2]
        · rcases z1 with ⟨cs1, q1⟩
          rw [hc1] at ihc
          simp only [Except.map] at ihc
          have hc2e := (exceptMap_ok_iff _ _ _).mp ihc.symm
          rcases hc2e with ⟨⟨cs2, q2⟩, hc2, hfc⟩
          dsimp only at hfc
          simp only [Prod.mk.injEq] at hfc
          obtain ⟨hccore, hqe⟩ := hfc
          subst hqe
          rw [hc2]
          dsimp only
          have hlr : rs2.length = rs1.length := by
            have := congrArg List.length hrcore
            simpa using this
          have hlu : us2.length = us1.length := by
            have := congrArg List.length hucore
            simpa using this
          have hlc : cs2.length = cs1.length := by
            have := congrArg List.length hccore
            simpa using this
          have hlen : (rs2 ++ us2 ++ cs2).length =
              (rs1 ++ us1 ++ cs1).length := by
            simp only [List.length_append, hlr, hlu, hlc]
          rw [hlen]
          by_cases hsz : (rs1 ++ us1 ++ cs1).length ≠ PACK_SIZE
          · rw [if_pos hsz, if_pos hsz]
          · rw [if_neg hsz, if_neg hsz]
            simp only [Except.map, List.map_append]
            rw [hrcore, hucore, hccore]

/-- C2 witness: the theorem applied at the one-set world against itself,
with different binder states and pools directory names. -/
theorem c2_deterministic_witness :
    (w0.poolFile "s1" = w0.poolFile "s1" ∧
      ∀ c, w0.meta "s1" c = w0.meta "s1" c) ∧
    (openPack "s1" cfg0 [] src0 5 "pools" w0).map
        (fun r => r.slots.map PSlot.core) =
      (openPack "s1" cfg0 ["r1", "u1"] src0 5 "other" w0).map
        (fun r => r.slots.map PSlot.core) :=
  ⟨⟨rfl, fun c => rfl⟩,
    c2_deterministic "s1" cfg0 [] ["r1", "u1"] src0 5 "pools" "other" w0 w0
      rfl (fun c => rfl)⟩


end BoosterPack
